import Mathlib

/-!
# Verification of the flyfront encrypted secure-storage subsystem

Shallow embedding of `libs/core/src/lib/services/crypto.service.ts` and
`libs/core/src/lib/services/secure-storage.service.ts`.

Platform collaborators (Web Crypto AES-GCM, `crypto.getRandomValues`,
`JSON.stringify`/`JSON.parse`, `btoa`/`atob`) are not part of the repository;
they are modelled from the spec as an ideal authenticated cipher, an explicit
entropy stream, and an injective serialization codec.  All repository code is
translated from the source.
-/

namespace Flyfront

/-- Modelled from the spec: a JSON-serializable value, the domain of values the
storage layer accepts (`core.models.ts` is not among the provided sources; the
spec describes values as "small JSON-serializable values"). -/
inductive Json where
  | null : Json
  | bool (b : Bool) : Json
  | num (n : Int) : Json
  | str (s : String) : Json
  | arr (elems : List Json) : Json
  | obj (fields : List (String × Json)) : Json

/-- Total conversion of a byte back to a character (the decoding side of the
UTF-8 elision; invalid code points map to a placeholder). -/
def natToChar (n : Nat) : Char :=
  if h : n.isValidChar then Char.ofNatAux n h else 'A'

/-- Modelled from the spec: byte-level encoding of a JSON value, standing for
the UTF-8 bytes of `JSON.stringify` (an injective text serialization provided
by the platform).  Bytes are natural numbers. -/
def encJson : Json → List Nat
  | .null => [0]
  | .bool b => [1, cond b 1 0]
  | .num n => [2, if n < 0 then 1 else 0, n.natAbs]
  | .str s => 3 :: s.data.length :: s.data.map Char.toNat
  | .arr xs => 4 :: xs.length :: encJsonList xs
  | .obj kvs => 5 :: kvs.length :: encJsonKVs kvs
where
  /-- Concatenated encodings of a list of elements. -/
  encJsonList : List Json → List Nat
    | [] => []
    | j :: js => encJson j ++ encJsonList js
  /-- Concatenated encodings of key/value fields. -/
  encJsonKVs : List (String × Json) → List Nat
    | [] => []
    | (k, v) :: kvs => (k.data.length :: k.data.map Char.toNat) ++ encJson v ++ encJsonKVs kvs

/-- Recursion depth of a JSON value (fuel bound for the decoder). -/
def depthJ : Json → Nat
  | .null => 1
  | .bool _ => 1
  | .num _ => 1
  | .str _ => 1
  | .arr xs => 1 + depthL xs
  | .obj kvs => 1 + depthKV kvs
where
  depthL : List Json → Nat
    | [] => 0
    | j :: js => max (depthJ j) (depthL js)
  depthKV : List (String × Json) → Nat
    | [] => 0
    | (_, v) :: kvs => max (depthJ v) (depthKV kvs)

mutual

/-- Modelled from the spec: decoder for `encJson`, standing for `JSON.parse`
composed with UTF-8 decoding.  Fuel-indexed; `decJson` consumes one encoded
value from the front of the byte list. -/
def decJson : Nat → List Nat → Option (Json × List Nat)
  | 0, _ => none
  | _ + 1, 0 :: r => some (.null, r)
  | _ + 1, 1 :: b :: r => some (.bool (b == 1), r)
  | _ + 1, 2 :: s :: m :: r => some (.num (if s == 1 then -(m : Int) else (m : Int)), r)
  | _ + 1, 3 :: len :: r =>
      if (r.take len).length = len then
        some (.str ⟨(r.take len).map natToChar⟩, r.drop len)
      else none
  | fuel + 1, 4 :: len :: r => (decJsonList fuel len r).map (fun p => (.arr p.1, p.2))
  | fuel + 1, 5 :: len :: r => (decJsonKVs fuel len r).map (fun p => (.obj p.1, p.2))
  | _ + 1, _ => none
termination_by fuel _ => (fuel, 0)

/-- Decode `n` consecutive JSON values. -/
def decJsonList : Nat → Nat → List Nat → Option (List Json × List Nat)
  | _, 0, r => some ([], r)
  | fuel, n + 1, r =>
      match decJson fuel r with
      | some (j, r') =>
          match decJsonList fuel n r' with
          | some (js, r'') => some (j :: js, r'')
          | none => none
      | none => none
termination_by fuel n _ => (fuel, n + 1)

/-- Decode `n` consecutive key/value fields. -/
def decJsonKVs : Nat → Nat → List Nat → Option (List (String × Json) × List Nat)
  | _, 0, r => some ([], r)
  | fuel, n + 1, len :: r =>
      if (r.take len).length = len then
        match decJson fuel (r.drop len) with
        | some (v, r') =>
            match decJsonKVs fuel n r' with
            | some (kvs, r'') => some ((⟨(r.take len).map natToChar⟩, v) :: kvs, r'')
            | none => none
        | none => none
      else none
  | _, _ + 1, [] => none
termination_by fuel n _ => (fuel, n + 1)

end

theorem natToChar_toNat (c : Char) : natToChar c.toNat = c := by
  have hv : c.toNat.isValidChar := c.valid
  rw [natToChar, dif_pos hv]
  rfl

theorem map_comp_natToChar (cs : List Char) :
    List.map (natToChar ∘ Char.toNat) cs = cs := by
  have h : (natToChar ∘ Char.toNat) = id := by
    funext c; exact natToChar_toNat c
  rw [h, List.map_id]

theorem map_ofNat_map_toNat (cs : List Char) :
    (cs.map Char.toNat).map natToChar = cs := by
  rw [List.map_map, map_comp_natToChar]

theorem take_append_exact {α : Type} (a b : List α) : (a ++ b).take a.length = a := by
  simp

theorem take_map_toNat_append (cs : List Char) (b : List Nat) :
    (List.map Char.toNat cs ++ b).take cs.length = List.map Char.toNat cs := by
  simp

theorem drop_map_toNat_append (cs : List Char) (b : List Nat) :
    (List.map Char.toNat cs ++ b).drop cs.length = b := by
  simp

theorem drop_append_exact {α : Type} (a b : List α) : (a ++ b).drop a.length = b := by
  simp

theorem depthL_mem_le (xs : List Json) (x : Json) (hx : x ∈ xs) :
    depthJ x ≤ depthJ.depthL xs := by
  induction xs with
  | nil => cases hx
  | cons j js ih =>
    rcases List.mem_cons.mp hx with h | h
    · subst h
      simp [depthJ.depthL]
    · simp only [depthJ.depthL, le_max_iff]
      right
      exact ih h

theorem depthKV_mem_le (kvs : List (String × Json)) (x : String × Json) (hx : x ∈ kvs) :
    depthJ x.2 ≤ depthJ.depthKV kvs := by
  induction kvs with
  | nil => cases hx
  | cons kv kvs ih =>
    rcases List.mem_cons.mp hx with h | h
    · subst h
      obtain ⟨k, v⟩ := x
      simp [depthJ.depthKV]
    · obtain ⟨k, v⟩ := kv
      simp only [depthJ.depthKV, le_max_iff]
      right
      exact ih h


theorem dec_enc_all (fuel : Nat) :
    (∀ (j : Json) (r : List Nat), depthJ j ≤ fuel →
        decJson fuel (encJson j ++ r) = some (j, r)) ∧
    (∀ (xs : List Json) (r : List Nat), (∀ x ∈ xs, depthJ x ≤ fuel) →
        decJsonList fuel xs.length (encJson.encJsonList xs ++ r) = some (xs, r)) ∧
    (∀ (kvs : List (String × Json)) (r : List Nat), (∀ x ∈ kvs, depthJ x.2 ≤ fuel) →
        decJsonKVs fuel kvs.length (encJson.encJsonKVs kvs ++ r) = some (kvs, r)) := by
  induction fuel with
  | zero =>
    refine ⟨fun j r h => ?_, fun xs r h => ?_, fun kvs r h => ?_⟩
    · cases j <;> simp [depthJ] at h
    · cases xs with
      | nil => simp [encJson.encJsonList, decJsonList]
      | cons j js =>
        have := h j (by simp)
        cases j <;> simp [depthJ] at this
    · cases kvs with
      | nil => simp [encJson.encJsonKVs, decJsonKVs]
      | cons kv kvs =>
        have := h kv (by simp)
        obtain ⟨k, v⟩ := kv
        cases v <;> simp [depthJ] at this
  | succ fuel ih =>
    -- value decoding at level `fuel + 1` uses list decoding at level `fuel`;
    -- list decoding at level `fuel + 1` uses value decoding at `fuel + 1`
    have hL : ∀ (xs : List Json) (r : List Nat), (∀ x ∈ xs, depthJ x ≤ fuel) →
        decJsonList fuel xs.length (encJson.encJsonList xs ++ r) = some (xs, r) := ih.2.1
    have hK : ∀ (kvs : List (String × Json)) (r : List Nat), (∀ x ∈ kvs, depthJ x.2 ≤ fuel) →
        decJsonKVs fuel kvs.length (encJson.encJsonKVs kvs ++ r) = some (kvs, r) := ih.2.2
    have hJ : ∀ (j : Json) (r : List Nat), depthJ j ≤ fuel + 1 →
        decJson (fuel + 1) (encJson j ++ r) = some (j, r) := by
      intro j r h
      cases j with
      | null => simp [encJson, decJson]
      | bool b => cases b <;> simp [encJson, decJson]
      | num n =>
        by_cases hn : n < 0
        · simp [encJson, decJson, hn, abs_of_neg hn]
        · simp [encJson, decJson, hn, abs_of_nonneg (le_of_not_lt hn)]
      | str s =>
        simp [encJson, decJson, take_append_exact, drop_append_exact]
        rw [map_comp_natToChar]
      | arr xs =>
        have hd : ∀ x ∈ xs, depthJ x ≤ fuel := by
          intro x hx
          have h1 := depthL_mem_le xs x hx
          simp [depthJ] at h
          omega
        simp [encJson, decJson, hL xs r hd]
      | obj kvs =>
        have hd : ∀ x ∈ kvs, depthJ x.2 ≤ fuel := by
          intro x hx
          have h1 := depthKV_mem_le kvs x hx
          simp [depthJ] at h
          omega
        simp [encJson, decJson, hK kvs r hd]
    refine ⟨hJ, fun xs => ?_, fun kvs => ?_⟩
    · induction xs with
      | nil => intro r _; simp [encJson.encJsonList, decJsonList]
      | cons j js ihl =>
        intro r h
        have h1 : depthJ j ≤ fuel + 1 := h j (by simp)
        have h2 : ∀ x ∈ js, depthJ x ≤ fuel + 1 := fun x hx => h x (by simp [hx])
        have hj := hJ j (encJson.encJsonList js ++ r) h1
        simp only [encJson.encJsonList, List.length_cons, List.append_assoc]
        simp only [decJsonList, hj, ihl r h2]
    · induction kvs with
      | nil => intro r _; simp [encJson.encJsonKVs, decJsonKVs]
      | cons kv kvs ihk =>
        intro r h
        obtain ⟨k, v⟩ := kv
        have h1 : depthJ v ≤ fuel + 1 := h (k, v) (by simp)
        have h2 : ∀ x ∈ kvs, depthJ x.2 ≤ fuel + 1 := fun x hx => h x (by simp [hx])
        have hj := hJ v (encJson.encJsonKVs kvs ++ r) h1
        simp only [encJson.encJsonKVs, List.length_cons, List.cons_append, List.append_assoc]
        simp only [List.append_assoc] at hj
        simp only [decJsonKVs, take_map_toNat_append, drop_map_toNat_append, List.length_map,
          hj, ihk r h2, map_comp_natToChar, List.map_map, if_true, if_pos]


mutual

/-- The decoder needs no more fuel than the length of the encoding. -/
theorem depth_le_enc : ∀ (j : Json), depthJ j ≤ (encJson j).length
  | .null => by simp [depthJ, encJson]
  | .bool b => by simp [depthJ, encJson]
  | .num n => by simp [depthJ, encJson]
  | .str s => by simp [depthJ, encJson]
  | .arr xs => by
      have h := depthL_le xs
      simp only [depthJ, encJson, List.length_cons]
      omega
  | .obj kvs => by
      have h := depthKV_le kvs
      simp only [depthJ, encJson, List.length_cons]
      omega

/-- Fuel bound for element lists. -/
theorem depthL_le : ∀ (xs : List Json), depthJ.depthL xs ≤ (encJson.encJsonList xs).length
  | [] => by simp [depthJ.depthL, encJson.encJsonList]
  | j :: js => by
      have h1 := depth_le_enc j
      have h2 := depthL_le js
      simp only [depthJ.depthL, encJson.encJsonList, List.length_append]
      omega

/-- Fuel bound for field lists. -/
theorem depthKV_le : ∀ (kvs : List (String × Json)), depthJ.depthKV kvs ≤ (encJson.encJsonKVs kvs).length
  | [] => by simp [depthJ.depthKV, encJson.encJsonKVs]
  | (k, v) :: kvs => by
      have h1 := depth_le_enc v
      have h2 := depthKV_le kvs
      simp only [depthJ.depthKV, encJson.encJsonKVs, List.length_append, List.length_cons]
      omega

end

/-- Whole-input decoding: `JSON.parse` of a complete serialized value. -/
def decJsonWhole (bs : List Nat) : Option Json :=
  match decJson (bs.length + 1) bs with
  | some (j, []) => some j
  | _ => none

/-- `JSON.parse` inverts `JSON.stringify` (roundtrip of the modelled codec). -/
theorem decJsonWhole_encJson (j : Json) : decJsonWhole (encJson j) = some j := by
  have h := (dec_enc_all ((encJson j).length + 1)).1 j []
    (le_trans (depth_le_enc j) (Nat.le_succ _))
  rw [List.append_nil] at h
  simp [decJsonWhole, h]

/-! ## Cryptographic primitives (`crypto.service.ts`) -/

/-- Modelled from the spec: an opaque symmetric key handle (`CryptoKey` of the
Web Crypto API).  `random` stands for a key produced by `generateKey`;
`derived` stands for the PBKDF2-derived key of `deriveKey`, determined by
password, salt and iteration count (spec: "Supplying the same password and the
same salt MUST always yield bit-identical derived key material"). -/
inductive CryptoKey where
  | random (material : List Nat)
  | derived (password : String) (salt : List Nat) (iterations : Nat)

/-- Injective byte framing of a key, used by the ideal cipher's tag. -/
def encodeKey : CryptoKey → List Nat
  | .random m => 0 :: m.length :: m
  | .derived pw s it => 1 :: pw.data.length :: (pw.data.map Char.toNat ++ (s.length :: s) ++ [it])

/-- Length-prefixed framing of the IV inside the ideal cipher's tag. -/
def ivFrame (iv : List Nat) : List Nat := iv.length :: iv

/-- Modelled from the spec: ideal AES-256-GCM encryption (`subtle.encrypt`).
The ciphertext is an authenticated frame binding key, IV and plaintext,
written twice; the duplication plays the role of the GCM authentication tag:
decryption checks it before releasing any plaintext, so any modification of
the ciphertext breaks authentication (spec: AEAD "decryption inherently
validates integrity"). -/
def aeadEncrypt (key : CryptoKey) (iv : List Nat) (pt : List Nat) : List Nat :=
  (encodeKey key ++ ivFrame iv ++ pt) ++ (encodeKey key ++ ivFrame iv ++ pt)

/-- Modelled from the spec: the failures of the primitives layer
(`UnavailableError`, `AuthenticationError` in the spec's taxonomy). -/
inductive CryptoError where
  | unavailable
  | authentication

/-- Modelled from the spec: ideal AES-256-GCM decryption (`subtle.decrypt`).
Verifies the authentication structure (duplicated frame, key and IV binding)
and only then decodes the plaintext; every failure is the authentication
failure the platform reports for wrong key or tampered payload. -/
def aeadDecrypt (key : CryptoKey) (iv : List Nat) (c : List Nat) : Except CryptoError Json :=
  if c.length % 2 ≠ 0 then .error .authentication
  else
    let a := c.take (c.length / 2)
    let b := c.drop (c.length / 2)
    if a ≠ b then .error .authentication
    else
      let pre := encodeKey key ++ ivFrame iv
      if a.take pre.length ≠ pre then .error .authentication
      else
        match decJsonWhole (a.drop pre.length) with
        | some v => .ok v
        | none => .error .authentication

/-- Decryption inverts encryption under the same key and IV. -/
theorem aeadDecrypt_aeadEncrypt (key : CryptoKey) (iv : List Nat) (v : Json) :
    aeadDecrypt key iv (aeadEncrypt key iv (encJson v)) = .ok v := by
  set f := encodeKey key ++ ivFrame iv ++ encJson v with hf
  have hlen : (f ++ f).length = 2 * f.length := by simp [List.length_append]; omega
  have hhalf : (f ++ f).length / 2 = f.length := by omega
  have hmod : (f ++ f).length % 2 = 0 := by omega
  have htake : (f ++ f).take f.length = f := take_append_exact f f
  have hdrop : (f ++ f).drop f.length = f := drop_append_exact f f
  have hpre : f.take (encodeKey key ++ ivFrame iv).length = encodeKey key ++ ivFrame iv := by
    rw [hf]
    exact take_append_exact (encodeKey key ++ ivFrame iv) (encJson v)
  have hrest : f.drop (encodeKey key ++ ivFrame iv).length = encJson v := by
    rw [hf]
    exact drop_append_exact (encodeKey key ++ ivFrame iv) (encJson v)
  rw [aeadDecrypt]
  simp only [aeadEncrypt, ← hf, hmod, hhalf, htake, hdrop]
  simp only [List.length_append] at hpre hrest
  simp [hpre, hrest, decJsonWhole_encJson v]

/-- Flipping bit `k` of a byte changes it. -/
theorem xor_two_pow_ne (b k : Nat) : b ^^^ 2 ^ k ≠ b := by
  intro h
  have h2 : (b ^^^ 2 ^ k) ^^^ b = 0 := by rw [h, Nat.xor_self]
  rw [Nat.xor_comm b (2 ^ k), Nat.xor_assoc, Nat.xor_self, Nat.xor_zero] at h2
  exact absurd h2 (Nat.pos_iff_ne_zero.mp (Nat.pos_pow_of_pos k (by norm_num)))

/-- A single-bit modification of a byte list at position `i`. -/
def flipBit (bs : List Nat) (i k : Nat) : List Nat :=
  bs.set i (bs.getD i 0 ^^^ 2 ^ k)

theorem flipBit_length (bs : List Nat) (i k : Nat) : (flipBit bs i k).length = bs.length := by
  simp [flipBit]

theorem flipBit_ne (bs : List Nat) (i k : Nat) (h : i < bs.length) :
    flipBit bs i k ≠ bs := by
  intro he
  have hg : (flipBit bs i k).getD i 0 = bs.getD i 0 := by rw [he]
  rw [flipBit, List.getD_eq_getElem?_getD, List.getElem?_set_self] at hg
  · rw [List.getD_eq_getElem?_getD, List.getElem?_eq_getElem h] at hg
    simp at hg
    exact xor_two_pow_ne _ _ hg
  · exact h


theorem set_append_left {α : Type} (l1 l2 : List α) (a : α) :
    ∀ i, i < l1.length → (l1 ++ l2).set i a = l1.set i a ++ l2 := by
  induction l1 with
  | nil => intro i h; simp at h
  | cons x l1 ih =>
    intro i h
    cases i with
    | zero => rfl
    | succ i =>
      have h2 := ih i (by simpa using h)
      simp only [List.cons_append, List.set]
      rw [show l1.append l2 = l1 ++ l2 from rfl, h2]

theorem set_append_right {α : Type} (l1 l2 : List α) (a : α) :
    ∀ i, l1.length ≤ i → (l1 ++ l2).set i a = l1 ++ l2.set (i - l1.length) a := by
  induction l1 with
  | nil => intro i h; simp
  | cons x l1 ih =>
    intro i h
    cases i with
    | zero => simp at h
    | succ i =>
      have h2 := ih i (by simpa using h)
      simp only [List.cons_append, List.set]
      rw [show l1.append l2 = l1 ++ l2 from rfl, h2]
      simp [Nat.succ_sub_succ]

/-- Decryption rejects when the two halves of the ciphertext disagree. -/
theorem aeadDecrypt_of_halves_ne (key : CryptoKey) (iv : List Nat) (c : List Nat)
    (hmod : c.length % 2 = 0)
    (hne : c.take (c.length / 2) ≠ c.drop (c.length / 2)) :
    aeadDecrypt key iv c = .error .authentication := by
  rw [aeadDecrypt, if_neg (by simp [hmod]), if_pos hne]

/-- Decryption rejects when the frame head does not match key and IV. -/
theorem aeadDecrypt_of_pre_ne (key : CryptoKey) (iv : List Nat) (c : List Nat)
    (hmod : c.length % 2 = 0)
    (heq : c.take (c.length / 2) = c.drop (c.length / 2))
    (hpre : (c.take (c.length / 2)).take (encodeKey key ++ ivFrame iv).length ≠
      encodeKey key ++ ivFrame iv) :
    aeadDecrypt key iv c = .error .authentication := by
  rw [aeadDecrypt, if_neg (by simp [hmod]), if_neg (not_not_intro heq), if_pos hpre]

/-- Tamper detection, ciphertext half: flipping any bit of a genuine ciphertext
makes decryption fail with the authentication error. -/
theorem aeadDecrypt_flipBit_ct (key : CryptoKey) (iv : List Nat) (v : Json) (i k : Nat)
    (h : i < (aeadEncrypt key iv (encJson v)).length) :
    aeadDecrypt key iv (flipBit (aeadEncrypt key iv (encJson v)) i k) =
      .error .authentication := by
  set f := encodeKey key ++ ivFrame iv ++ encJson v with hf
  have hc : aeadEncrypt key iv (encJson v) = f ++ f := rfl
  rw [hc] at h ⊢
  simp only [List.length_append] at h
  by_cases hi : i < f.length
  · have hgd : (f ++ f).getD i 0 = f.getD i 0 := List.getD_append f f 0 i hi
    have hset : flipBit (f ++ f) i k = flipBit f i k ++ f := by
      rw [flipBit, hgd, set_append_left f f _ i hi, flipBit]
    rw [hset]
    have hlf : (flipBit f i k).length = f.length := flipBit_length f i k
    have hlen : (flipBit f i k ++ f).length = 2 * f.length := by
      simp [List.length_append, hlf]; omega
    apply aeadDecrypt_of_halves_ne
    · omega
    · have hhalf : (flipBit f i k ++ f).length / 2 = (flipBit f i k).length := by omega
      rw [hhalf, take_append_exact, drop_append_exact]
      exact flipBit_ne f i k hi
  · have hi2 : f.length ≤ i := le_of_not_lt hi
    have hilt : i - f.length < f.length := by omega
    have hgd : (f ++ f).getD i 0 = f.getD (i - f.length) 0 :=
      List.getD_append_right f f 0 i hi2
    have hset : flipBit (f ++ f) i k = f ++ flipBit f (i - f.length) k := by
      rw [flipBit, hgd, set_append_right f f _ i hi2, flipBit]
    rw [hset]
    have hlf : (flipBit f (i - f.length) k).length = f.length := flipBit_length _ _ _
    have hlen : (f ++ flipBit f (i - f.length) k).length = 2 * f.length := by
      simp [List.length_append, hlf]; omega
    apply aeadDecrypt_of_halves_ne
    · omega
    · have hhalf : (f ++ flipBit f (i - f.length) k).length / 2 = f.length := by omega
      rw [hhalf, take_append_exact, drop_append_exact]
      exact Ne.symm (flipBit_ne f _ k hilt)

/-- Tamper detection, IV half: flipping any bit of the stored IV makes
decryption of a genuine ciphertext fail with the authentication error. -/
theorem aeadDecrypt_flipBit_iv (key : CryptoKey) (iv : List Nat) (v : Json) (i k : Nat)
    (h : i < iv.length) :
    aeadDecrypt key (flipBit iv i k) (aeadEncrypt key iv (encJson v)) =
      .error .authentication := by
  set f := encodeKey key ++ ivFrame iv ++ encJson v with hf
  have hc : aeadEncrypt key iv (encJson v) = f ++ f := rfl
  rw [hc]
  have hlen : (f ++ f).length = 2 * f.length := by simp [List.length_append]; omega
  have hhalf : (f ++ f).length / 2 = f.length := by omega
  apply aeadDecrypt_of_pre_ne
  · omega
  · rw [hhalf, take_append_exact, drop_append_exact]
  · rw [hhalf, take_append_exact]
    have hplen : (encodeKey key ++ ivFrame (flipBit iv i k)).length =
        (encodeKey key ++ ivFrame iv).length := by
      simp [List.length_append, ivFrame, flipBit_length]
    rw [hplen, hf, take_append_exact (encodeKey key ++ ivFrame iv) (encJson v)]
    intro he
    have h2 := List.append_cancel_left he
    rw [ivFrame, ivFrame, flipBit_length] at h2
    have h3 : iv = flipBit iv i k := (List.cons_eq_cons.mp h2).2
    exact flipBit_ne iv i k h h3.symm

/-- Different IVs of equal length give different ciphertexts (same key, same
plaintext). -/
theorem aeadEncrypt_ne_of_iv_ne (key : CryptoKey) (pt : List Nat) (iv1 iv2 : List Nat)
    (hlen : iv1.length = iv2.length) (hne : iv1 ≠ iv2) :
    aeadEncrypt key iv1 pt ≠ aeadEncrypt key iv2 pt := by
  intro he
  set f1 := encodeKey key ++ ivFrame iv1 ++ pt with hf1
  set f2 := encodeKey key ++ ivFrame iv2 ++ pt with hf2
  have hl : f1.length = f2.length := by
    simp [hf1, hf2, List.length_append, ivFrame, hlen]
  have he2 : f1 ++ f1 = f2 ++ f2 := he
  have h1 : f1 = (f2 ++ f2).take f1.length := by
    rw [← he2]; exact (take_append_exact f1 f1).symm
  rw [hl, take_append_exact f2 f2] at h1
  rw [hf1, hf2] at h1
  have h2 := List.append_cancel_right h1
  have h3 := List.append_cancel_left h2
  rw [ivFrame, ivFrame] at h3
  exact hne (List.cons_eq_cons.mp h3).2


/-! ## World state threaded through both services -/

/-- A value held by a key-value backend cell: either a string that parses as
JSON (represented by the parsed value — the platform JSON codec is a bijection
between such strings and JSON values) or a string `JSON.parse` rejects. -/
inductive Cell where
  | json (j : Json)
  | junk (s : String)

/-- The state threaded through the services: the platform entropy source and
availability flags, the three key-value backends, and the private fields of
`SecureStorageService` (`encryptionKey`, `keySalt`, `initialized`).  `rng` and
`ctr` model `crypto.getRandomValues`: call number `ctr` returns bytes
`rng ctr 0, rng ctr 1, ...` (mod 256). -/
structure World where
  cryptoAvailable : Bool
  rng : Nat → Nat → Nat
  ctr : Nat
  localAvailable : Bool
  sessionAvailable : Bool
  localStore : List (String × Cell)
  sessionStore : List (String × Cell)
  memoryStore : List (String × Cell)
  encryptionKey : Option CryptoKey
  keySalt : Option (List Nat)
  initialized : Bool

/-- The bytes the `n`-th `getRandomValues` call of length `len` returns. -/
def drawAt (w : World) (n len : Nat) : List Nat :=
  (List.range len).map (fun j => w.rng n j % 256)

/-- Modelled from the spec: `crypto.getRandomValues(new Uint8Array(len))` —
the next `len` random bytes from the platform CSPRNG, advancing the stream. -/
def drawBytes (w : World) (len : Nat) : List Nat × World :=
  (drawAt w w.ctr len, { w with ctr := w.ctr + 1 })

/-! ## Cryptographic service operations (`crypto.service.ts`) -/

namespace CryptoService

/-- `CryptoService.isAvailable`. -/
def isAvailable (w : World) : Bool := w.cryptoAvailable

/-- `CryptoService.generateKey`: fresh random AES-256-GCM key (256 bits = 32
random bytes); fails when the Web Crypto API is unavailable
(`ensureAvailable`). -/
def generateKey (w : World) : Except CryptoError (CryptoKey × World) :=
  if w.cryptoAvailable then
    match drawBytes w 32 with
    | (m, w') => .ok (.random m, w')
  else .error .unavailable

/-- `CryptoService.generateSalt` (SALT_LENGTH = 16). -/
def generateSalt (w : World) : List Nat × World := drawBytes w 16

/-- `CryptoService.generateIV` (IV_LENGTH = 12). -/
def generateIV (w : World) : List Nat × World := drawBytes w 12

/-- `CryptoService.deriveKey`: PBKDF2 key derivation (the platform KDF is
modelled symbolically by the `CryptoKey.derived` constructor, which is why the
same password and salt always reproduce the same key); uses the given salt or
generates a fresh 16-byte one (`salt ?? this.generateSalt()`).  The default
iteration count 100000 is passed explicitly by callers. -/
def deriveKey (w : World) (password : String) (salt : Option (List Nat))
    (iterations : Nat) : Except CryptoError ((CryptoKey × List Nat) × World) :=
  if w.cryptoAvailable then
    match salt with
    | some s => .ok ((.derived password s iterations, s), w)
    | none =>
        match generateSalt w with
        | (s, w') => .ok ((.derived password s iterations, s), w')
  else .error .unavailable

end CryptoService

/-- Modelled from the spec: the `EncryptedPayload` envelope of
`core.models.ts` (not among the sources; spec §3 lists `ciphertext`, `iv`,
optional `salt`, `algorithm`).  Base64 text fields are represented by their
decoded byte lists. -/
structure EncryptedPayload where
  ciphertext : List Nat
  iv : List Nat
  salt : Option (List Nat)
  algorithm : String

namespace CryptoService

/-- `CryptoService.encrypt`: JSON-serializes the data, generates a fresh
random IV and encrypts; returns the self-contained envelope.  The storage
service always calls it without a salt. -/
def encrypt (w : World) (data : Json) (key : CryptoKey) (salt : Option (List Nat)) :
    Except CryptoError (EncryptedPayload × World) :=
  if w.cryptoAvailable then
    match generateIV w with
    | (iv, w') =>
        .ok ({ ciphertext := aeadEncrypt key iv (encJson data), iv := iv,
               salt := salt, algorithm := "AES-GCM-256" }, w')
  else .error .unavailable

/-- `CryptoService.decrypt`: authenticated decryption with the embedded IV,
then JSON-parses the plaintext. -/
def decrypt (w : World) (p : EncryptedPayload) (key : CryptoKey) :
    Except CryptoError Json :=
  if w.cryptoAvailable then aeadDecrypt key p.iv p.ciphertext
  else .error .unavailable

end CryptoService

/-! ## Storage backends -/

/-- `getItem` on an association-list backend (first binding wins). -/
def storeGet : List (String × Cell) → String → Option Cell
  | [], _ => none
  | (k', c) :: s, k => if k' = k then some c else storeGet s k

/-- `setItem`: replace in place, append if absent. -/
def storeSet : List (String × Cell) → String → Cell → List (String × Cell)
  | [], k, c => [(k, c)]
  | (k', c') :: s, k, c => if k' = k then (k, c) :: s else (k', c') :: storeSet s k c

/-- `removeItem`. -/
def storeRemove : List (String × Cell) → String → List (String × Cell)
  | [], _ => []
  | (k', c') :: s, k => if k' = k then storeRemove s k else (k', c') :: storeRemove s k

/-- The storage selector of `SecureStorageOptions.storage`
('local' | 'session' | 'memory'). -/
inductive StorageType where
  | localT
  | sessionT
  | memoryT

/-- A resolved concrete backend. -/
inductive StoreId where
  | locS
  | sesS
  | memS

/-- `getStorage`: resolves the requested backend, falling back to the shared
in-memory map when the browser storage is unavailable
(`isStorageAvailable`). -/
def resolveStore (w : World) : StorageType → StoreId
  | .sessionT => if w.sessionAvailable then .sesS else .memS
  | .memoryT => .memS
  | .localT => if w.localAvailable then .locS else .memS

def readStore (w : World) : StoreId → List (String × Cell)
  | .locS => w.localStore
  | .sesS => w.sessionStore
  | .memS => w.memoryStore

def writeStore (w : World) (sid : StoreId) (s : List (String × Cell)) : World :=
  match sid with
  | .locS => { w with localStore := s }
  | .sesS => { w with sessionStore := s }
  | .memS => { w with memoryStore := s }

def cellGet (w : World) (st : StorageType) (k : String) : Option Cell :=
  storeGet (readStore w (resolveStore w st)) k

def cellSet (w : World) (st : StorageType) (k : String) (c : Cell) : World :=
  writeStore w (resolveStore w st) (storeSet (readStore w (resolveStore w st)) k c)

def cellRemove (w : World) (st : StorageType) (k : String) : World :=
  writeStore w (resolveStore w st) (storeRemove (readStore w (resolveStore w st)) k)

/-! ## Storage service data (`secure-storage.service.ts`) -/

/-- Modelled from the spec: `SecureStorageOptions` of `core.models.ts` (not
among the sources; §4.2 lists `ttl` in milliseconds, `storage`, `version`,
`encrypt` defaulting to true). -/
structure SecureStorageOptions where
  ttl : Option Nat := none
  storage : StorageType := .localT
  version : Option Int := none
  encrypt : Bool := true

/-- `KeyMode` = 'session' | 'password' | 'provided'. -/
inductive KeyMode where
  | session
  | password
  | provided

/-- `SecureStorageConfig`. -/
structure SecureStorageConfig where
  keyMode : KeyMode
  password : Option String := none
  key : Option CryptoKey := none

/-- Failures thrown by the storage layer, named per the spec's taxonomy (§7);
the source throws plain `Error`s with matching messages. -/
inductive StorageError where
  | missingPassword
  | missingKey
  | rotateUnavailable
  | crypto (e : CryptoError)

/-- `private readonly prefix = 'fly_secure_'`. -/
def prefixStr : String := "fly_secure_"

/-- `getPrefixedKey`. -/
def prefixedKey (k : String) : String := prefixStr ++ k

/-- JavaScript truthiness of a defined JSON value. -/
def truthy : Json → Bool
  | .null => false
  | .bool b => b
  | .num n => n != 0
  | .str s => s != ""
  | .arr _ => true
  | .obj _ => true

/-- Truthiness with `undefined` (`none`) falsy. -/
def truthyOpt : Option Json → Bool
  | none => false
  | some j => truthy j

/-- Field access on a parsed JSON value (`item.field`; `undefined` on
non-objects and missing fields; first binding wins, as envelopes written by
the service never repeat a key). -/
def lookupField : List (String × Json) → String → Option Json
  | [], _ => none
  | (k', v) :: kvs, k => if k' = k then some v else lookupField kvs k

def Json.lookup : Json → String → Option Json
  | .obj kvs, k => lookupField kvs k
  | _, _ => none

/-- Byte lists as they appear inside envelope JSON (standing for the base64
strings produced by `arrayBufferToBase64`; base64 is a bijection between byte
lists and the strings, so the byte list is the faithful representation). -/
def bytesToJson (bs : List Nat) : Json := .arr (bs.map (fun b => .num (Int.ofNat b)))

/-- Reading a byte list back (`base64ToArrayBuffer`); `none` models an `atob`
failure, which surfaces as an exception inside the caller's `try`. -/
def bytesOfList : List Json → Option (List Nat)
  | [] => some []
  | .num n :: xs =>
      match bytesOfList xs with
      | some bs => some (n.toNat :: bs)
      | none => none
  | _ :: _ => none

def jsonToBytes : Json → Option (List Nat)
  | .arr xs => bytesOfList xs
  | _ => none

/-- The JSON form of an `EncryptedPayload` as `JSON.stringify` embeds it
(the optional `salt` field is dropped when `undefined`). -/
def payloadToJson (p : EncryptedPayload) : Json :=
  .obj ([("ciphertext", bytesToJson p.ciphertext), ("iv", bytesToJson p.iv)] ++
    (match p.salt with | some s => [("salt", bytesToJson s)] | none => []) ++
    [("algorithm", .str p.algorithm)])

/-- `decrypt`'s reads of `payload.ciphertext` and `payload.iv` from a parsed
envelope; `none` models the exception thrown for malformed payloads. -/
def payloadBytesOfJson (j : Json) : Option (List Nat × List Nat) :=
  match jsonToBytes' (Json.lookup j "ciphertext"), jsonToBytes' (Json.lookup j "iv") with
  | some ct, some iv => some (ct, iv)
  | _, _ => none
where
  jsonToBytes' : Option Json → Option (List Nat)
    | some j' => jsonToBytes j'
    | none => none

/-- The serialized `StoredItem` envelope, Encrypted variant, in field order
(`JSON.stringify` drops the `undefined` optional fields). -/
def encryptedItemJson (p : EncryptedPayload) (createdAt : Nat) (expiresAt : Option Nat)
    (version : Option Int) : Json :=
  .obj ([("encrypted", .bool true), ("payload", payloadToJson p),
    ("createdAt", .num createdAt)] ++
    (match expiresAt with | some e => [("expiresAt", .num e)] | none => []) ++
    (match version with | some n => [("version", .num n)] | none => []))

/-- The serialized `StoredItem` envelope, Plain variant. -/
def plainItemJson (value : Json) (createdAt : Nat) (expiresAt : Option Nat)
    (version : Option Int) : Json :=
  .obj ([("encrypted", .bool false), ("value", value), ("createdAt", .num createdAt)] ++
    (match expiresAt with | some e => [("expiresAt", .num e)] | none => []) ++
    (match version with | some n => [("version", .num n)] | none => []))

/-- `get`'s expiry test `item.expiresAt && Date.now() > item.expiresAt`
(0 is falsy; a non-numeric `expiresAt` makes the comparison NaN-false). -/
def expiryHit (item : Json) (now : Nat) : Bool :=
  match Json.lookup item "expiresAt" with
  | some (.num e) => e != 0 && (now : Int) > e
  | _ => false

/-- `get`'s version test `version !== undefined && item.version !== version`
(strict inequality: a missing or non-numeric stored version never equals a
requested number). -/
def versionMiss (item : Json) (version : Option Int) : Bool :=
  match version with
  | none => false
  | some vq =>
      match Json.lookup item "version" with
      | some (.num n) => n != vq
      | _ => true


/-! ## Storage service operations -/

namespace SecureStorageService

/-- `isInitialized`. -/
def isInitialized (w : World) : Bool := w.initialized

/-- `isEncryptionAvailable`: the crypto primitive is reachable AND a key is
loaded. -/
def isEncryptionAvailable (w : World) : Bool :=
  CryptoService.isAvailable w && w.encryptionKey.isSome

/-- `new Uint8Array(JSON.parse(saltStr))` for the possible shapes of the
parsed value: an array of numbers gives its bytes (coerced mod 256), a number
`n` gives `n` zero bytes, anything else gives an empty (still truthy!)
typed array. -/
def uint8ArrayOfJson : Json → List Nat
  | .arr xs => xs.map (fun x => match x with | .num n => (n % 256).toNat | _ => 0)
  | .num n => List.replicate n.toNat 0
  | _ => []

/-- `loadSalt`: reads `localStorage` directly (not `getStorage`), `undefined`
when the read or the parse throws or the entry is missing/empty. -/
def loadSalt (w : World) : Option (List Nat) :=
  if w.localAvailable then
    match storeGet w.localStore (prefixStr ++ "_salt") with
    | some (.json j) => some (uint8ArrayOfJson j)
    | some (.junk _) => none
    | none => none
  else none

/-- `saveSalt`: writes the salt as a plain JSON number array directly to
`localStorage`; storage errors are swallowed. -/
def saveSalt (w : World) (salt : List Nat) : World :=
  if w.localAvailable then
    let c : Cell := .json (.arr (salt.map (fun b => .num (Int.ofNat b))))
    { w with localStore := storeSet w.localStore (prefixStr ++ "_salt") c }
  else w

/-- `SecureStorageService.initialize` (named `initializeStorage` because
`initialize` is reserved in Lean).  When the crypto primitive is
unavailable it only warns and marks the service initialized; otherwise it
installs a key per `keyMode`.  Thrown errors are returned as `some e` with the
world reflecting exactly the mutations made before the throw. -/
def initializeStorage (w : World) (cfg : SecureStorageConfig) : World × Option StorageError :=
  if !w.cryptoAvailable then
    ({ w with initialized := true }, none)
  else
    match cfg.keyMode with
    | .session =>
        match CryptoService.generateKey w with
        | .ok (key, w') => ({ w' with encryptionKey := some key, initialized := true }, none)
        | .error e => (w, some (.crypto e))
    | .password =>
        match cfg.password with
        | none => (w, some .missingPassword)
        | some pw =>
            if pw = "" then (w, some .missingPassword)
            else
              let existingSalt := loadSalt w
              match CryptoService.deriveKey w pw existingSalt 100000 with
              | .ok ((key, salt), w1) =>
                  let w2 := { w1 with encryptionKey := some key, keySalt := some salt }
                  let w3 := if existingSalt.isNone then saveSalt w2 salt else w2
                  ({ w3 with initialized := true }, none)
              | .error e => (w, some (.crypto e))
    | .provided =>
        match cfg.key with
        | none => (w, some .missingKey)
        | some key_ => ({ w with encryptionKey := some key_, initialized := true }, none)

/-- `expiresAt = ttl ? Date.now() + ttl : undefined` (0 is falsy). -/
def expiresAtOf (ttl : Option Nat) (now : Nat) : Option Nat :=
  match ttl with
  | some t => if t ≠ 0 then some (now + t) else none
  | none => none

/-- `SecureStorageService.set` (`now` models `Date.now()`; the two `Date.now()`
reads inside one call are the same instant).  `expiresAt` is set only for a
truthy `ttl`. -/
def set (w : World) (key : String) (value : Json) (opts : SecureStorageOptions)
    (now : Nat) : World × Option StorageError :=
  let pk := prefixedKey key
  let expiresAt : Option Nat := expiresAtOf opts.ttl now
  match w.encryptionKey, opts.encrypt && w.cryptoAvailable with
  | some key_, true =>
      match CryptoService.encrypt w value key_ none with
      | .ok (payload, w') =>
          (cellSet w' opts.storage pk
            (.json (encryptedItemJson payload now expiresAt opts.version)), none)
      | .error e => (w, some (.crypto e))
  | _, _ =>
      (cellSet w opts.storage pk
        (.json (plainItemJson value now expiresAt opts.version)), none)

/-- `SecureStorageService.get`: reads and validates the envelope; corrupt or
undecryptable entries are removed and reported absent, decryption with the
service's key is transparent, failures never propagate. -/
def get (w : World) (key : String) (opts : SecureStorageOptions) (now : Nat) :
    Option Json × World :=
  let pk := prefixedKey key
  match cellGet w opts.storage pk with
  | none => (none, w)
  | some (.junk s) =>
      if s = "" then (none, w)
      else (none, cellRemove w opts.storage pk)
  | some (.json item) =>
      if expiryHit item now then (none, cellRemove w opts.storage pk)
      else if versionMiss item opts.version then (none, cellRemove w opts.storage pk)
      else if truthyOpt (Json.lookup item "encrypted") then
        if w.cryptoAvailable then
          match w.encryptionKey with
          | some key_ =>
              match Json.lookup item "payload" with
              | some pj =>
                  match payloadBytesOfJson pj with
                  | some ctiv =>
                      match aeadDecrypt key_ ctiv.2 ctiv.1 with
                      | .ok v => (some v, w)
                      | .error _ => (none, cellRemove w opts.storage pk)
                  | none => (none, cellRemove w opts.storage pk)
              | none => (none, cellRemove w opts.storage pk)
          | none => (none, w)
        else (none, w)
      else (Json.lookup item "value", w)

/-- `SecureStorageService.remove`. -/
def remove (w : World) (key : String) (opts : SecureStorageOptions) : World :=
  cellRemove w opts.storage (prefixedKey key)

/-- `SecureStorageService.has` = `get(...) !== undefined` (inherits `get`'s
side effects). -/
def has (w : World) (key : String) (opts : SecureStorageOptions) (now : Nat) :
    Bool × World :=
  match get w key opts now with
  | (v, w') => (v.isSome, w')

/-- The prefix test `key.startsWith(this.prefix)`. -/
def hasPrefixStr (s : String) : Bool := prefixStr.data.isPrefixOf s.data

/-- The strip `key.substring(this.prefix.length)`. -/
def stripPrefixStr (s : String) : String := String.mk (s.data.drop prefixStr.data.length)

/-- The pairs `keys`/`clear` can enumerate.  The `memory` selector iterates
the service's map directly; for `local`/`session` the code iterates the object
returned by `getStorage` as a browser `Storage` — when the browser storage is
unavailable that object is the memory wrapper, which has no `length`/`key`
members, so the loop body never runs and nothing is enumerated. -/
def enumerablePairs (w : World) : StorageType → List (String × Cell)
  | .memoryT => w.memoryStore
  | .localT => if w.localAvailable then w.localStore else []
  | .sessionT => if w.sessionAvailable then w.sessionStore else []

/-- `SecureStorageService.keys`: prefixed keys of the selected backend,
with the namespace prefix stripped. -/
def keys (w : World) (opts : SecureStorageOptions) : List String :=
  ((enumerablePairs w opts.storage).filter (fun p => hasPrefixStr p.1)).map
    (fun p => stripPrefixStr p.1)

/-- `SecureStorageService.clear`: collects the prefixed keys, then removes
them from the resolved backend. -/
def clear (w : World) (opts : SecureStorageOptions) : World :=
  (((enumerablePairs w opts.storage).filter (fun p => hasPrefixStr p.1)).map
    (fun p => p.1)).foldl (fun w' k => cellRemove w' opts.storage k) w

/-- `SecureStorageService.destroy`: wipes the in-memory key material only. -/
def destroy (w : World) : World :=
  { w with encryptionKey := none, keySalt := none, initialized := false }

/-- The read loop of `rotateKey`: `get` every key, keep the defined values. -/
def collectItems (w : World) (ks : List String) (st : StorageType) (now : Nat) :
    List (String × Json) × World :=
  match ks with
  | [] => ([], w)
  | k :: rest =>
      match get w k { storage := st } now with
      | (v, w') =>
          match v, collectItems w' rest st now with
          | some val, (items, w'') => ((k, val) :: items, w'')
          | none, q => q

/-- The write loop of `rotateKey`: sequential `set`, first failure
propagates. -/
def setAll (w : World) (items : List (String × Json)) (st : StorageType) (now : Nat) :
    World × Option StorageError :=
  match items with
  | [] => (w, none)
  | (k, v) :: rest =>
      match set w k v { storage := st } now with
      | (w', none) => setAll w' rest st now
      | (w', some e) => (w', some e)

/-- `SecureStorageService.rotateKey`: read everything with the current key,
re-initialize with the new config, re-write everything (re-encrypting with
the new key). -/
def rotateKey (w : World) (newConfig : SecureStorageConfig) (st : StorageType)
    (now : Nat) : World × Option StorageError :=
  if !(isEncryptionAvailable w) then (w, some .rotateUnavailable)
  else
    let ks := keys w { storage := st }
    match collectItems w ks st now with
    | (items, w1) =>
        match initializeStorage w1 newConfig with
        | (w2, none) => setAll w2 items st now
        | (w2, some e) => (w2, some e)

end SecureStorageService


/-! ## Backend and frame lemmas -/

theorem storeGet_set_self (s : List (String × Cell)) (k : String) (c : Cell) :
    storeGet (storeSet s k c) k = some c := by
  induction s with
  | nil => simp [storeSet, storeGet]
  | cons p s ih =>
    obtain ⟨k', c'⟩ := p
    by_cases h : k' = k
    · simp [storeSet, storeGet, h]
    · simp [storeSet, storeGet, h, ih]

theorem storeGet_set_ne (s : List (String × Cell)) (k k2 : String) (c : Cell)
    (h : k2 ≠ k) : storeGet (storeSet s k c) k2 = storeGet s k2 := by
  induction s with
  | nil => simp [storeSet, storeGet, Ne.symm h]
  | cons p s ih =>
    obtain ⟨k', c'⟩ := p
    by_cases hk : k' = k
    · subst hk
      simp [storeSet, storeGet, Ne.symm h]
    · by_cases hk2 : k' = k2
      · simp [storeSet, storeGet, hk, hk2, h]
      · simp [storeSet, storeGet, hk, hk2, ih]

theorem storeGet_remove_self (s : List (String × Cell)) (k : String) :
    storeGet (storeRemove s k) k = none := by
  induction s with
  | nil => simp [storeRemove, storeGet]
  | cons p s ih =>
    obtain ⟨k', c'⟩ := p
    by_cases h : k' = k
    · simp [storeRemove, h, ih]
    · simp [storeRemove, storeGet, h, ih]

theorem storeGet_remove_ne (s : List (String × Cell)) (k k2 : String) (h : k2 ≠ k) :
    storeGet (storeRemove s k) k2 = storeGet s k2 := by
  induction s with
  | nil => simp [storeRemove]
  | cons p s ih =>
    obtain ⟨k', c'⟩ := p
    by_cases hk : k' = k
    · subst hk
      simp [storeRemove, storeGet, Ne.symm h, ih]
    · by_cases hk2 : k' = k2
      · simp [storeRemove, storeGet, hk, hk2, h]
      · simp [storeRemove, storeGet, hk, hk2, ih]

theorem writeStore_cryptoAvailable (w : World) (sid : StoreId) (s : List (String × Cell)) :
    (writeStore w sid s).cryptoAvailable = w.cryptoAvailable := by
  cases sid <;> rfl

theorem writeStore_encryptionKey (w : World) (sid : StoreId) (s : List (String × Cell)) :
    (writeStore w sid s).encryptionKey = w.encryptionKey := by
  cases sid <;> rfl

theorem writeStore_keySalt (w : World) (sid : StoreId) (s : List (String × Cell)) :
    (writeStore w sid s).keySalt = w.keySalt := by
  cases sid <;> rfl

theorem writeStore_initialized (w : World) (sid : StoreId) (s : List (String × Cell)) :
    (writeStore w sid s).initialized = w.initialized := by
  cases sid <;> rfl

theorem writeStore_localAvailable (w : World) (sid : StoreId) (s : List (String × Cell)) :
    (writeStore w sid s).localAvailable = w.localAvailable := by
  cases sid <;> rfl

theorem writeStore_sessionAvailable (w : World) (sid : StoreId) (s : List (String × Cell)) :
    (writeStore w sid s).sessionAvailable = w.sessionAvailable := by
  cases sid <;> rfl

theorem writeStore_ctr (w : World) (sid : StoreId) (s : List (String × Cell)) :
    (writeStore w sid s).ctr = w.ctr := by
  cases sid <;> rfl

theorem writeStore_rng (w : World) (sid : StoreId) (s : List (String × Cell)) :
    (writeStore w sid s).rng = w.rng := by
  cases sid <;> rfl

theorem resolveStore_writeStore (w : World) (sid : StoreId) (s : List (String × Cell))
    (st : StorageType) : resolveStore (writeStore w sid s) st = resolveStore w st := by
  cases sid <;> cases st <;> rfl

theorem readStore_writeStore_self (w : World) (sid : StoreId) (s : List (String × Cell)) :
    readStore (writeStore w sid s) sid = s := by
  cases sid <;> rfl

theorem readStore_writeStore_ne (w : World) (sid sid2 : StoreId) (s : List (String × Cell))
    (h : sid2 ≠ sid) : readStore (writeStore w sid s) sid2 = readStore w sid2 := by
  cases sid <;> cases sid2 <;> first | rfl | exact absurd rfl h

theorem cellGet_cellSet_self (w : World) (st : StorageType) (k : String) (c : Cell) :
    cellGet (cellSet w st k c) st k = some c := by
  rw [cellGet, cellSet, resolveStore_writeStore, readStore_writeStore_self,
    storeGet_set_self]

theorem cellGet_cellSet_ne (w : World) (st : StorageType) (k k2 : String) (c : Cell)
    (h : k2 ≠ k) : cellGet (cellSet w st k c) st k2 = cellGet w st k2 := by
  rw [cellGet, cellSet, resolveStore_writeStore, readStore_writeStore_self,
    storeGet_set_ne _ _ _ _ h, cellGet]

theorem cellGet_cellRemove_self (w : World) (st : StorageType) (k : String) :
    cellGet (cellRemove w st k) st k = none := by
  rw [cellGet, cellRemove, resolveStore_writeStore, readStore_writeStore_self,
    storeGet_remove_self]

theorem cellGet_cellRemove_ne (w : World) (st : StorageType) (k k2 : String) (h : k2 ≠ k) :
    cellGet (cellRemove w st k) st k2 = cellGet w st k2 := by
  rw [cellGet, cellRemove, resolveStore_writeStore, readStore_writeStore_self,
    storeGet_remove_ne _ _ _ h, cellGet]

theorem cellSet_cryptoAvailable (w : World) (st : StorageType) (k : String) (c : Cell) :
    (cellSet w st k c).cryptoAvailable = w.cryptoAvailable := writeStore_cryptoAvailable _ _ _

theorem cellSet_encryptionKey (w : World) (st : StorageType) (k : String) (c : Cell) :
    (cellSet w st k c).encryptionKey = w.encryptionKey := writeStore_encryptionKey _ _ _

theorem cellRemove_cryptoAvailable (w : World) (st : StorageType) (k : String) :
    (cellRemove w st k).cryptoAvailable = w.cryptoAvailable := writeStore_cryptoAvailable _ _ _

theorem cellRemove_encryptionKey (w : World) (st : StorageType) (k : String) :
    (cellRemove w st k).encryptionKey = w.encryptionKey := writeStore_encryptionKey _ _ _

/-- `prefix + key` is injective in the caller key. -/
theorem prefixedKey_inj (a b : String) (h : prefixedKey a = prefixedKey b) : a = b := by
  have h2 := congrArg String.data h
  rw [prefixedKey, prefixedKey, prefixStr, String.data_append, String.data_append] at h2
  have h3 := List.append_cancel_left h2
  cases a; cases b
  simpa using congrArg String.mk h3

/-! ## Envelope lookup lemmas -/

theorem jsonToBytes_bytesToJson (bs : List Nat) : jsonToBytes (bytesToJson bs) = some bs := by
  rw [bytesToJson, jsonToBytes]
  induction bs with
  | nil => simp [bytesOfList]
  | cons b bs ih =>
    simp only [List.map_cons, bytesOfList, ih]
    simp

theorem payloadBytes_roundtrip (p : EncryptedPayload) :
    payloadBytesOfJson (payloadToJson p) = some (p.ciphertext, p.iv) := by
  have hct : Json.lookup (payloadToJson p) "ciphertext" = some (bytesToJson p.ciphertext) := by
    cases hs : p.salt <;> simp [payloadToJson, Json.lookup, lookupField, hs]
  have hiv : Json.lookup (payloadToJson p) "iv" = some (bytesToJson p.iv) := by
    cases hs : p.salt <;> simp [payloadToJson, Json.lookup, lookupField, hs]
  rw [payloadBytesOfJson, hct, hiv]
  simp [payloadBytesOfJson.jsonToBytes', jsonToBytes_bytesToJson]

theorem encItem_lookup_encrypted (p : EncryptedPayload) (ca : Nat) (ea : Option Nat)
    (ver : Option Int) :
    Json.lookup (encryptedItemJson p ca ea ver) "encrypted" = some (.bool true) := by
  simp [encryptedItemJson, Json.lookup, lookupField]

theorem encItem_lookup_payload (p : EncryptedPayload) (ca : Nat) (ea : Option Nat)
    (ver : Option Int) :
    Json.lookup (encryptedItemJson p ca ea ver) "payload" = some (payloadToJson p) := by
  simp [encryptedItemJson, Json.lookup, lookupField]

theorem encItem_lookup_expiresAt (p : EncryptedPayload) (ca : Nat) (ea : Option Nat)
    (ver : Option Int) :
    Json.lookup (encryptedItemJson p ca ea ver) "expiresAt" =
      (match ea with | some e => some (.num (Int.ofNat e)) | none => none) := by
  cases ea <;> cases ver <;> simp [encryptedItemJson, Json.lookup, lookupField]

theorem encItem_lookup_version (p : EncryptedPayload) (ca : Nat) (ea : Option Nat)
    (ver : Option Int) :
    Json.lookup (encryptedItemJson p ca ea ver) "version" =
      (match ver with | some n => some (.num n) | none => none) := by
  cases ea <;> cases ver <;> simp [encryptedItemJson, Json.lookup, lookupField]

theorem plainItem_lookup_encrypted (v : Json) (ca : Nat) (ea : Option Nat)
    (ver : Option Int) :
    Json.lookup (plainItemJson v ca ea ver) "encrypted" = some (.bool false) := by
  simp [plainItemJson, Json.lookup, lookupField]

theorem plainItem_lookup_value (v : Json) (ca : Nat) (ea : Option Nat)
    (ver : Option Int) :
    Json.lookup (plainItemJson v ca ea ver) "value" = some v := by
  simp [plainItemJson, Json.lookup, lookupField]

theorem plainItem_lookup_expiresAt (v : Json) (ca : Nat) (ea : Option Nat)
    (ver : Option Int) :
    Json.lookup (plainItemJson v ca ea ver) "expiresAt" =
      (match ea with | some e => some (.num (Int.ofNat e)) | none => none) := by
  cases ea <;> cases ver <;> simp [plainItemJson, Json.lookup, lookupField]

theorem plainItem_lookup_version (v : Json) (ca : Nat) (ea : Option Nat)
    (ver : Option Int) :
    Json.lookup (plainItemJson v ca ea ver) "version" =
      (match ver with | some n => some (.num n) | none => none) := by
  cases ea <;> cases ver <;> simp [plainItemJson, Json.lookup, lookupField]


/-! ## `get`/`set` characterizations -/

namespace SecureStorageService

theorem versionMiss_none (item : Json) : versionMiss item none = false := rfl

theorem expiryHit_encItem_none (p : EncryptedPayload) (ca : Nat) (ver : Option Int)
    (now : Nat) : expiryHit (encryptedItemJson p ca none ver) now = false := by
  rw [expiryHit, encItem_lookup_expiresAt]

theorem expiryHit_plainItem_none (v : Json) (ca : Nat) (ver : Option Int)
    (now : Nat) : expiryHit (plainItemJson v ca none ver) now = false := by
  rw [expiryHit, plainItem_lookup_expiresAt]

theorem expiryHit_encItem_some (p : EncryptedPayload) (ca e : Nat) (ver : Option Int)
    (now : Nat) :
    expiryHit (encryptedItemJson p ca (some e) ver) now =
      ((Int.ofNat e != 0) && ((now : Int) > Int.ofNat e)) := by
  rw [expiryHit, encItem_lookup_expiresAt]

theorem expiryHit_plainItem_some (v : Json) (ca e : Nat) (ver : Option Int)
    (now : Nat) :
    expiryHit (plainItemJson v ca (some e) ver) now =
      ((Int.ofNat e != 0) && ((now : Int) > Int.ofNat e)) := by
  rw [expiryHit, plainItem_lookup_expiresAt]

/-- `get` when the backend holds nothing under the key. -/
theorem get_missing (w : World) (k : String) (opts : SecureStorageOptions) (now : Nat)
    (h : cellGet w opts.storage (prefixedKey k) = none) :
    get w k opts now = (none, w) := by
  simp [get, h]

/-- `get` on a backend string that fails `JSON.parse`: absent, self-healed. -/
theorem get_junk (w : World) (k : String) (opts : SecureStorageOptions) (now : Nat)
    (s : String) (h : cellGet w opts.storage (prefixedKey k) = some (.junk s))
    (hs : s ≠ "") :
    get w k opts now = (none, cellRemove w opts.storage (prefixedKey k)) := by
  simp [get, h, hs]

/-- `get` on an expired entry: absent, entry deleted. -/
theorem get_expired (w : World) (k : String) (opts : SecureStorageOptions) (now : Nat)
    (item : Json) (h : cellGet w opts.storage (prefixedKey k) = some (.json item))
    (hx : expiryHit item now = true) :
    get w k opts now = (none, cellRemove w opts.storage (prefixedKey k)) := by
  simp [get, h, hx]

/-- `get` on a fresh Encrypted envelope with the service keyed: decrypts, and
on authentication failure removes the entry and reports absent. -/
theorem get_enc (w : World) (k : String) (st : StorageType) (now : Nat)
    (p : EncryptedPayload) (ca : Nat) (key_ : CryptoKey)
    (hc : cellGet w st (prefixedKey k) = some (.json (encryptedItemJson p ca none none)))
    (hca : w.cryptoAvailable = true) (hk : w.encryptionKey = some key_) :
    get w k { storage := st } now =
      (match aeadDecrypt key_ p.iv p.ciphertext with
        | .ok v => (some v, w)
        | .error _ => (none, cellRemove w st (prefixedKey k))) := by
  have hopts : ({ storage := st } : SecureStorageOptions).storage = st := rfl
  simp only [get, hopts, hc, expiryHit_encItem_none, versionMiss_none,
    encItem_lookup_encrypted, encItem_lookup_payload, truthyOpt, truthy,
    payloadBytes_roundtrip, hca, hk, Bool.false_eq_true, if_false, if_true]

/-- `get` on a fresh Encrypted envelope when the service holds no key:
absent without removal (`console.error` path). -/
theorem get_enc_nokey (w : World) (k : String) (st : StorageType) (now : Nat)
    (p : EncryptedPayload) (ca : Nat)
    (hc : cellGet w st (prefixedKey k) = some (.json (encryptedItemJson p ca none none)))
    (hk : w.encryptionKey = none) :
    get w k { storage := st } now = (none, w) := by
  have hopts : ({ storage := st } : SecureStorageOptions).storage = st := rfl
  simp only [get, hopts, hc, expiryHit_encItem_none, versionMiss_none,
    encItem_lookup_encrypted, truthyOpt, truthy, hk, Bool.false_eq_true, if_false, if_true]
  split <;> rfl

/-- `get` on a fresh Plain envelope: returns the stored value unchanged,
independently of key state. -/
theorem get_plain (w : World) (k : String) (st : StorageType) (now : Nat)
    (v : Json) (ca : Nat)
    (hc : cellGet w st (prefixedKey k) = some (.json (plainItemJson v ca none none))) :
    get w k { storage := st } now = (some v, w) := by
  have hopts : ({ storage := st } : SecureStorageOptions).storage = st := rfl
  simp only [get, hopts, hc, expiryHit_plainItem_none, versionMiss_none,
    plainItem_lookup_encrypted, plainItem_lookup_value, truthyOpt, truthy,
    Bool.false_eq_true, if_false]

/-- `set` characterization, encrypting path. -/
theorem set_enc_eq (w : World) (k : String) (v : Json) (opts : SecureStorageOptions)
    (now : Nat) (key_ : CryptoKey)
    (hk : w.encryptionKey = some key_) (he : opts.encrypt = true)
    (hca : w.cryptoAvailable = true) :
    set w k v opts now =
      (cellSet { w with ctr := w.ctr + 1 } opts.storage (prefixedKey k)
        (.json (encryptedItemJson
          { ciphertext := aeadEncrypt key_ (drawAt w w.ctr 12) (encJson v),
            iv := drawAt w w.ctr 12, salt := none, algorithm := "AES-GCM-256" }
          now (expiresAtOf opts.ttl now) opts.version)), none) := by
  simp [set, hk, he, hca, CryptoService.encrypt, CryptoService.generateIV, drawBytes]

/-- `set` characterization, plaintext path (no key, encryption opted out, or
crypto unavailable). -/
theorem set_plain_eq (w : World) (k : String) (v : Json) (opts : SecureStorageOptions)
    (now : Nat)
    (h : w.encryptionKey = none ∨ opts.encrypt = false ∨ w.cryptoAvailable = false) :
    set w k v opts now =
      (cellSet w opts.storage (prefixedKey k)
        (.json (plainItemJson v now (expiresAtOf opts.ttl now) opts.version)), none) := by
  rcases h with h | h | h
  · simp [set, h]
  · cases hk : w.encryptionKey <;> simp [set, h, hk]
  · cases hk : w.encryptionKey <;> simp [set, h, hk]

end SecureStorageService


/-! ## Concrete worlds for witnesses -/

/-- A deterministic entropy stream: draw number `n` yields bytes `n % 256`. -/
def rng0 : Nat → Nat → Nat := fun n _ => n

/-- A fresh world: crypto and both browser storages available, all backends
empty, service uninitialized. -/
def emptyWorld : World :=
  { cryptoAvailable := true, rng := rng0, ctr := 0, localAvailable := true,
    sessionAvailable := true, localStore := [], sessionStore := [],
    memoryStore := [], encryptionKey := none, keySalt := none, initialized := false }

/-- The same world without the Web Crypto API. -/
def noCryptoWorld : World := { emptyWorld with cryptoAvailable := false }

/-! ## Claims -/

/-- C1: every `encrypt` call draws a fresh random 12-byte IV from the entropy
stream: the IV is a function of the stream position only (never derived from
the plaintext or key), and two consecutive encryptions of the same plaintext
under the same key whose entropy draws differ return envelopes with different
`iv` and different `ciphertext`. -/
theorem C1_iv_fresh (w : World) (data : Json) (key : CryptoKey)
    (hav : w.cryptoAvailable = true)
    (p1 : EncryptedPayload) (w1 : World) (p2 : EncryptedPayload) (w2 : World)
    (h1 : CryptoService.encrypt w data key none = .ok (p1, w1))
    (h2 : CryptoService.encrypt w1 data key none = .ok (p2, w2))
    (hrand : drawAt w w.ctr 12 ≠ drawAt w (w.ctr + 1) 12) :
    p1.iv = drawAt w w.ctr 12 ∧
    p1.iv.length = 12 ∧
    (∀ (data' : Json) (key' : CryptoKey) (q : EncryptedPayload) (wq : World),
      CryptoService.encrypt w data' key' none = .ok (q, wq) → q.iv = p1.iv) ∧
    p1.iv ≠ p2.iv ∧
    p1.ciphertext ≠ p2.ciphertext := by
  have hdraw : ∀ (w' : World) (n len : Nat), w'.rng = w.rng →
      drawAt w' n len = drawAt w n len := by
    intro w' n len h
    rw [drawAt, drawAt, h]
  simp only [CryptoService.encrypt, CryptoService.generateIV, drawBytes, hav, if_true,
    Except.ok.injEq, Prod.mk.injEq] at h1
  obtain ⟨hp1, hw1⟩ := h1
  have hav1 : w1.cryptoAvailable = true := by rw [← hw1]
  simp only [CryptoService.encrypt, CryptoService.generateIV, drawBytes, hav1, if_true,
    Except.ok.injEq, Prod.mk.injEq] at h2
  obtain ⟨hp2, hw2⟩ := h2
  have hiv1 : p1.iv = drawAt w w.ctr 12 := by rw [← hp1]
  have hct1 : p1.ciphertext = aeadEncrypt key (drawAt w w.ctr 12) (encJson data) := by
    rw [← hp1]
  have hrng1 : w1.rng = w.rng := by rw [← hw1]
  have hctr1 : w1.ctr = w.ctr + 1 := by rw [← hw1]
  have hiv2 : p2.iv = drawAt w (w.ctr + 1) 12 := by
    rw [← hp2]
    show drawAt w1 w1.ctr 12 = drawAt w (w.ctr + 1) 12
    rw [hdraw w1 _ _ hrng1, hctr1]
  have hct2 : p2.ciphertext = aeadEncrypt key (drawAt w (w.ctr + 1) 12) (encJson data) := by
    rw [← hp2]
    show aeadEncrypt key (drawAt w1 w1.ctr 12) (encJson data) = _
    rw [hdraw w1 _ _ hrng1, hctr1]
  have hlen : ∀ n : Nat, (drawAt w n 12).length = 12 := by
    intro n
    simp [drawAt]
  refine ⟨hiv1, by rw [hiv1]; exact hlen _, ?_, ?_, ?_⟩
  · intro data' key' q wq hq
    simp only [CryptoService.encrypt, CryptoService.generateIV, drawBytes, hav, if_true,
      Except.ok.injEq, Prod.mk.injEq] at hq
    obtain ⟨hq1, _⟩ := hq
    rw [← hq1, hiv1]
  · rw [hiv1, hiv2]
    exact hrand
  · rw [hct1, hct2]
    exact aeadEncrypt_ne_of_iv_ne key (encJson data) _ _ (by rw [hlen, hlen]) hrand

/-- C1 witness: concrete instantiation of `C1_iv_fresh`. -/
theorem C1_witness :
    ({ ciphertext := aeadEncrypt (.random []) (drawAt emptyWorld 0 12) (encJson .null),
       iv := drawAt emptyWorld 0 12, salt := none,
       algorithm := "AES-GCM-256" } : EncryptedPayload).iv ≠
      ({ ciphertext := aeadEncrypt (.random []) (drawAt emptyWorld 1 12) (encJson .null),
         iv := drawAt emptyWorld 1 12, salt := none,
         algorithm := "AES-GCM-256" } : EncryptedPayload).iv ∧
    ({ ciphertext := aeadEncrypt (.random []) (drawAt emptyWorld 0 12) (encJson .null),
       iv := drawAt emptyWorld 0 12, salt := none,
       algorithm := "AES-GCM-256" } : EncryptedPayload).ciphertext ≠
      ({ ciphertext := aeadEncrypt (.random []) (drawAt emptyWorld 1 12) (encJson .null),
         iv := drawAt emptyWorld 1 12, salt := none,
         algorithm := "AES-GCM-256" } : EncryptedPayload).ciphertext := by
  have h := C1_iv_fresh emptyWorld .null (.random []) rfl
    { ciphertext := aeadEncrypt (.random []) (drawAt emptyWorld 0 12) (encJson .null),
      iv := drawAt emptyWorld 0 12, salt := none, algorithm := "AES-GCM-256" }
    { emptyWorld with ctr := 1 }
    { ciphertext := aeadEncrypt (.random []) (drawAt emptyWorld 1 12) (encJson .null),
      iv := drawAt emptyWorld 1 12, salt := none, algorithm := "AES-GCM-256" }
    { emptyWorld with ctr := 2 }
    rfl rfl (by decide)
  exact ⟨h.2.2.2.1, h.2.2.2.2⟩

/-- C2: decrypt is a left inverse of encrypt: for every JSON value `v` and
every key produced by `generateKey`, decrypting the envelope produced by
encrypting `v` under that key returns `v`. -/
theorem C2_roundtrip (w : World) (v : Json)
    (hav : w.cryptoAvailable = true)
    (key : CryptoKey) (w1 : World)
    (hk : CryptoService.generateKey w = .ok (key, w1))
    (p : EncryptedPayload) (w2 : World)
    (he : CryptoService.encrypt w1 v key none = .ok (p, w2)) :
    CryptoService.decrypt w2 p key = .ok v := by
  simp only [CryptoService.generateKey, drawBytes, hav, if_true,
    Except.ok.injEq, Prod.mk.injEq] at hk
  obtain ⟨hkey, hw1⟩ := hk
  have hav1 : w1.cryptoAvailable = true := by rw [← hw1]
  simp only [CryptoService.encrypt, CryptoService.generateIV, drawBytes, hav1, if_true,
    Except.ok.injEq, Prod.mk.injEq] at he
  obtain ⟨hp, hw2⟩ := he
  have hav2 : w2.cryptoAvailable = true := by rw [← hw2]
  rw [CryptoService.decrypt, if_pos hav2, ← hp]
  exact aeadDecrypt_aeadEncrypt key _ v

/-- C2 witness: concrete instantiation of `C2_roundtrip`. -/
theorem C2_witness :
    CryptoService.decrypt { emptyWorld with ctr := 2 }
      { ciphertext := aeadEncrypt (.random (drawAt emptyWorld 0 32))
          (drawAt emptyWorld 1 12) (encJson (.num 7)),
        iv := drawAt emptyWorld 1 12, salt := none, algorithm := "AES-GCM-256" }
      (.random (drawAt emptyWorld 0 32)) = .ok (.num 7) := by
  exact C2_roundtrip emptyWorld (.num 7) rfl (.random (drawAt emptyWorld 0 32))
    { emptyWorld with ctr := 1 } rfl
    { ciphertext := aeadEncrypt (.random (drawAt emptyWorld 0 32))
        (drawAt emptyWorld 1 12) (encJson (.num 7)),
      iv := drawAt emptyWorld 1 12, salt := none, algorithm := "AES-GCM-256" }
    { emptyWorld with ctr := 2 } rfl

/-- C3: tamper detection.  Flipping any bit of a genuine ciphertext, or of its
IV, makes primitive-level decryption fail with the distinct authentication
error; at the storage layer an Encrypted entry whose decryption fails reads as
absent (never as a wrong plaintext). -/
theorem C3_tamper_detection (key : CryptoKey) (iv : List Nat) (v : Json) (i k : Nat) :
    (i < (aeadEncrypt key iv (encJson v)).length →
      aeadDecrypt key iv (flipBit (aeadEncrypt key iv (encJson v)) i k) =
        .error .authentication) ∧
    (i < iv.length →
      aeadDecrypt key (flipBit iv i k) (aeadEncrypt key iv (encJson v)) =
        .error .authentication) ∧
    (∀ (w : World) (sk : String) (st : StorageType) (ca now : Nat)
        (q : EncryptedPayload) (e : CryptoError),
      w.cryptoAvailable = true → w.encryptionKey = some key →
      aeadDecrypt key q.iv q.ciphertext = .error e →
      cellGet w st (prefixedKey sk) = some (.json (encryptedItemJson q ca none none)) →
      (SecureStorageService.get w sk { storage := st } now).1 = none) := by
  refine ⟨fun h => aeadDecrypt_flipBit_ct key iv v i k h,
          fun h => aeadDecrypt_flipBit_iv key iv v i k h,
          fun w sk st ca now q e hca hk hd hc => ?_⟩
  rw [SecureStorageService.get_enc w sk st now q ca key hc hca hk, hd]

def keyC3 : CryptoKey := .random []

def ivC3 : List Nat := List.replicate 12 0

def qC3 : EncryptedPayload :=
  { ciphertext := flipBit (aeadEncrypt keyC3 ivC3 (encJson .null)) 0 0,
    iv := ivC3, salt := none, algorithm := "AES-GCM-256" }

def wC3 : World :=
  { emptyWorld with
    encryptionKey := some keyC3
    localStore := [(prefixedKey "x", .json (encryptedItemJson qC3 0 none none))] }

/-- C3 witness: concrete instantiation of `C3_tamper_detection`. -/
theorem C3_witness :
    aeadDecrypt keyC3 ivC3 (flipBit (aeadEncrypt keyC3 ivC3 (encJson .null)) 0 0) =
      .error .authentication ∧
    aeadDecrypt keyC3 (flipBit ivC3 0 0) (aeadEncrypt keyC3 ivC3 (encJson .null)) =
      .error .authentication ∧
    (SecureStorageService.get wC3 "x" { storage := .localT } 0).1 = none := by
  have h := C3_tamper_detection keyC3 ivC3 .null 0 0
  have hlen : 0 < (aeadEncrypt keyC3 ivC3 (encJson .null)).length := by
    simp [aeadEncrypt, keyC3, encodeKey]
  refine ⟨h.1 hlen, h.2.1 (by simp [ivC3]), ?_⟩
  exact h.2.2 wC3 "x" .localT 0 0 qC3 .authentication rfl rfl (h.1 hlen) rfl

/-- C8 counterexample: with the Web Crypto API unavailable, `initialize` in
password mode without a password does NOT fail — it marks the service
initialized and returns no error. -/
theorem C8_counterexample :
    (SecureStorageService.initializeStorage noCryptoWorld
      { keyMode := .password, password := none, key := none }).2 = none ∧
    (SecureStorageService.initializeStorage noCryptoWorld
      { keyMode := .password, password := none, key := none }).1.initialized = true := by
  exact ⟨rfl, rfl⟩

/-- C8 (amended: provided the crypto primitive is available): `initialize`
with `keyMode = 'password'` and no password fails with the
missing-password error, and the returned world is exactly the input world —
no key-management state changed before the failure. -/
theorem C8_missing_password (w : World) (cfg : SecureStorageConfig)
    (hca : w.cryptoAvailable = true) (hm : cfg.keyMode = .password)
    (hp : cfg.password = none) :
    SecureStorageService.initializeStorage w cfg = (w, some .missingPassword) := by
  simp [SecureStorageService.initializeStorage, hca, hm, hp]

/-- C8 witness: concrete instantiation of `C8_missing_password`. -/
theorem C8_witness :
    SecureStorageService.initializeStorage emptyWorld
      { keyMode := .password, password := none, key := none } =
      (emptyWorld, some .missingPassword) := by
  exact C8_missing_password emptyWorld
    { keyMode := .password, password := none, key := none } rfl rfl rfl


/-- C5: the persisted envelope is the Encrypted variant exactly when the
`encrypt` option (default true) holds and `isEncryptionAvailable()` is true;
otherwise it is the Plain variant holding the raw value — and with encryption
unavailable (before initialize, after destroy, or without Web Crypto),
`set`/`get` still succeed in plaintext rather than throwing. -/
theorem C5_encryption_gating (w : World) (k : String) (v : Json)
    (opts : SecureStorageOptions) (now : Nat) :
    (SecureStorageService.set w k v opts now).2 = none ∧
    (∃ item : Json,
      cellGet (SecureStorageService.set w k v opts now).1 opts.storage (prefixedKey k) =
        some (.json item) ∧
      Json.lookup item "encrypted" =
        some (.bool (opts.encrypt && SecureStorageService.isEncryptionAvailable w)) ∧
      ((opts.encrypt && SecureStorageService.isEncryptionAvailable w) = true →
        ∃ q : EncryptedPayload, Json.lookup item "payload" = some (payloadToJson q)) ∧
      ((opts.encrypt && SecureStorageService.isEncryptionAvailable w) = false →
        Json.lookup item "value" = some v)) ∧
    (SecureStorageService.isEncryptionAvailable w = false →
      (SecureStorageService.get
        (SecureStorageService.set w k v { storage := opts.storage } now).1
        k { storage := opts.storage } now).1 = some v) := by
  by_cases hgate : (opts.encrypt && SecureStorageService.isEncryptionAvailable w) = true
  · have henc : opts.encrypt = true := by
      rcases Bool.and_eq_true_iff.mp hgate with ⟨h1, _⟩
      exact h1
    have hea : SecureStorageService.isEncryptionAvailable w = true := by
      rcases Bool.and_eq_true_iff.mp hgate with ⟨_, h2⟩
      exact h2
    have hca : w.cryptoAvailable = true := by
      rcases Bool.and_eq_true_iff.mp hea with ⟨h1, _⟩
      exact h1
    obtain ⟨key_, hk⟩ : ∃ key_, w.encryptionKey = some key_ := by
      rcases Bool.and_eq_true_iff.mp hea with ⟨_, h2⟩
      cases hx : w.encryptionKey with
      | none => rw [hx] at h2; simp at h2
      | some key_ => exact ⟨key_, rfl⟩
    rw [SecureStorageService.set_enc_eq w k v opts now key_ hk henc hca]
    refine ⟨rfl, ⟨_, cellGet_cellSet_self _ _ _ _, ?_, ?_, ?_⟩, ?_⟩
    · rw [encItem_lookup_encrypted, hgate]
    · intro _
      exact ⟨_, encItem_lookup_payload _ _ _ _⟩
    · intro hc
      rw [hgate] at hc
      cases hc
    · intro hfalse
      rw [hfalse] at hea
      cases hea
  · have hgf : (opts.encrypt && SecureStorageService.isEncryptionAvailable w) = false :=
      Bool.not_eq_true _ ▸ Bool.of_not_eq_true hgate
    have hdisj : w.encryptionKey = none ∨ opts.encrypt = false ∨ w.cryptoAvailable = false := by
      rcases Bool.and_eq_false_iff.mp hgf with h | h
      · exact Or.inr (Or.inl h)
      · rw [SecureStorageService.isEncryptionAvailable, CryptoService.isAvailable] at h
        rcases Bool.and_eq_false_iff.mp h with h2 | h2
        · exact Or.inr (Or.inr h2)
        · cases hx : w.encryptionKey with
          | none => exact Or.inl rfl
          | some key_ => rw [hx] at h2; simp at h2
    rw [SecureStorageService.set_plain_eq w k v opts now hdisj]
    refine ⟨rfl, ⟨_, cellGet_cellSet_self _ _ _ _, ?_, ?_, ?_⟩, ?_⟩
    · rw [plainItem_lookup_encrypted, hgf]
    · intro hc
      rw [hgf] at hc
      cases hc
    · intro _
      exact plainItem_lookup_value _ _ _ _
    · intro hea
      have hdisj2 : w.encryptionKey = none ∨
          ({ storage := opts.storage } : SecureStorageOptions).encrypt = false ∨
          w.cryptoAvailable = false := by
        rw [SecureStorageService.isEncryptionAvailable, CryptoService.isAvailable] at hea
        rcases Bool.and_eq_false_iff.mp hea with h2 | h2
        · exact Or.inr (Or.inr h2)
        · cases hx : w.encryptionKey with
          | none => exact Or.inl rfl
          | some key_ => rw [hx] at h2; simp at h2
      rw [SecureStorageService.set_plain_eq w k v { storage := opts.storage } now hdisj2]
      have hcell := cellGet_cellSet_self w opts.storage (prefixedKey k)
        (.json (plainItemJson v now (SecureStorageService.expiresAtOf none now) none))
      rw [SecureStorageService.get_plain _ k opts.storage now v now hcell]

/-- C5 witness: concrete instantiation of `C5_encryption_gating` (uninitialized
world: the gate is false, the Plain variant is stored and `get` returns the
value). -/
theorem C5_witness :
    (SecureStorageService.get
      (SecureStorageService.set emptyWorld "k" (.num 1)
        { storage := StorageType.localT } 0).1
      "k" { storage := StorageType.localT } 0).1 = some (.num 1) := by
  exact (C5_encryption_gating emptyWorld "k" (.num 1)
    { storage := StorageType.localT } 0).2.2 rfl


/-- C7: an entry stored with a (truthy) ttl gets `expiresAt = createdAt + ttl`;
any `get` after that instant deletes the entry from the backend and returns
absent, and `has` afterwards is false. -/
theorem C7_ttl_expiry (w : World) (k : String) (v : Json) (t : Nat) (st : StorageType)
    (now now2 now3 : Nat) (w1 : World) (e : Option StorageError)
    (ht : t ≠ 0) (hexp : now + t < now2)
    (hset : SecureStorageService.set w k v { ttl := some t, storage := st } now = (w1, e)) :
    SecureStorageService.get w1 k { storage := st } now2 =
      (none, cellRemove w1 st (prefixedKey k)) ∧
    cellGet (cellRemove w1 st (prefixedKey k)) st (prefixedKey k) = none ∧
    (SecureStorageService.has (cellRemove w1 st (prefixedKey k)) k
      { storage := st } now3).1 = false := by
  have hea : SecureStorageService.expiresAtOf (some t) now = some (now + t) := by
    simp [SecureStorageService.expiresAtOf, ht]
  have hhit : ∀ item : Json,
      Json.lookup item "expiresAt" = some (.num (Int.ofNat (now + t))) →
      expiryHit item now2 = true := by
    intro item hl
    rw [expiryHit, hl]
    simp
    omega
  have main : ∀ item : Json,
      cellGet w1 st (prefixedKey k) = some (.json item) →
      expiryHit item now2 = true →
      SecureStorageService.get w1 k { storage := st } now2 =
        (none, cellRemove w1 st (prefixedKey k)) := by
    intro item hc hx
    exact SecureStorageService.get_expired w1 k { storage := st } now2 item hc hx
  have hgone : cellGet (cellRemove w1 st (prefixedKey k)) st (prefixedKey k) = none :=
    cellGet_cellRemove_self w1 st (prefixedKey k)
  have hhas : (SecureStorageService.has (cellRemove w1 st (prefixedKey k)) k
      { storage := st } now3).1 = false := by
    rw [SecureStorageService.has,
      SecureStorageService.get_missing _ k { storage := st } now3 hgone]
    rfl
  -- identify the stored envelope from the two `set` paths
  rcases hkey : w.encryptionKey with _ | key_
  · rw [SecureStorageService.set_plain_eq w k v { ttl := some t, storage := st } now
      (Or.inl hkey)] at hset
    obtain ⟨hw1, _⟩ := Prod.mk.injEq .. ▸ hset
    have hc : cellGet w1 st (prefixedKey k) =
        some (.json (plainItemJson v now (some (now + t)) none)) := by
      rw [← hw1, hea]
      exact cellGet_cellSet_self _ _ _ _
    refine ⟨main _ hc (hhit _ ?_), hgone, hhas⟩
    rw [plainItem_lookup_expiresAt]
  · rcases hca : w.cryptoAvailable with _ | _
    · rw [SecureStorageService.set_plain_eq w k v { ttl := some t, storage := st } now
        (Or.inr (Or.inr hca))] at hset
      obtain ⟨hw1, _⟩ := Prod.mk.injEq .. ▸ hset
      have hc : cellGet w1 st (prefixedKey k) =
          some (.json (plainItemJson v now (some (now + t)) none)) := by
        rw [← hw1, hea]
        exact cellGet_cellSet_self _ _ _ _
      refine ⟨main _ hc (hhit _ ?_), hgone, hhas⟩
      rw [plainItem_lookup_expiresAt]
    · rw [SecureStorageService.set_enc_eq w k v { ttl := some t, storage := st } now key_
        hkey rfl hca] at hset
      obtain ⟨hw1, _⟩ := Prod.mk.injEq .. ▸ hset
      have hc : cellGet w1 st (prefixedKey k) =
          some (.json (encryptedItemJson
            { ciphertext := aeadEncrypt key_ (drawAt w w.ctr 12) (encJson v),
              iv := drawAt w w.ctr 12, salt := none, algorithm := "AES-GCM-256" }
            now (some (now + t)) none)) := by
        rw [← hw1, hea]
        exact cellGet_cellSet_self _ _ _ _
      refine ⟨main _ hc (hhit _ ?_), hgone, hhas⟩
      rw [encItem_lookup_expiresAt]

/-- C7 witness: concrete instantiation of `C7_ttl_expiry`. -/
theorem C7_witness :
    SecureStorageService.get
      (cellSet emptyWorld .localT (prefixedKey "k")
        (.json (plainItemJson (.num 1) 0 (some 1) none)))
      "k" { storage := StorageType.localT } 2 =
      (none,
        cellRemove
          (cellSet emptyWorld .localT (prefixedKey "k")
            (.json (plainItemJson (.num 1) 0 (some 1) none)))
          .localT (prefixedKey "k")) := by
  exact (C7_ttl_expiry emptyWorld "k" (.num 1) 1 .localT 0 2 0
    (cellSet emptyWorld .localT (prefixedKey "k")
      (.json (plainItemJson (.num 1) 0 (some 1) none)))
    none (by decide) (by decide) rfl).1


def wC6 : World :=
  { emptyWorld with
    localStore := [(prefixedKey "x", .json (.obj [("value", .num 5)]))] }

/-- C6 counterexample: a stored entry that is valid JSON but NOT a valid
envelope (no `encrypted` tag) — `get` returns its `value` field (here a
defined value, not absent) and does not remove the entry. -/
theorem C6_counterexample :
    (SecureStorageService.get wC6 "x" { storage := StorageType.localT } 0).1 =
      some (.num 5) ∧
    cellGet (SecureStorageService.get wC6 "x" { storage := StorageType.localT } 0).2
      .localT (prefixedKey "x") = some (.json (.obj [("value", .num 5)])) := by
  exact ⟨rfl, rfl⟩

/-- C6 (amended: "fails to parse as a valid envelope" restricted to "fails to
parse as JSON"): entries whose backend string `JSON.parse` rejects, and
Encrypted entries whose attempted decryption fails, are reported absent and
eagerly removed (a subsequent `has` is false); the failure never propagates
(`get` is total and returns absence). -/
theorem C6_self_healing (w : World) (k : String) (st : StorageType) (now : Nat) :
    (∀ s : String, s ≠ "" →
      cellGet w st (prefixedKey k) = some (.junk s) →
      SecureStorageService.get w k { storage := st } now =
        (none, cellRemove w st (prefixedKey k)) ∧
      cellGet (cellRemove w st (prefixedKey k)) st (prefixedKey k) = none ∧
      (SecureStorageService.has (cellRemove w st (prefixedKey k)) k
        { storage := st } now).1 = false) ∧
    (∀ (q : EncryptedPayload) (ca : Nat) (key_ : CryptoKey) (e : CryptoError),
      w.cryptoAvailable = true → w.encryptionKey = some key_ →
      aeadDecrypt key_ q.iv q.ciphertext = .error e →
      cellGet w st (prefixedKey k) = some (.json (encryptedItemJson q ca none none)) →
      SecureStorageService.get w k { storage := st } now =
        (none, cellRemove w st (prefixedKey k)) ∧
      cellGet (cellRemove w st (prefixedKey k)) st (prefixedKey k) = none ∧
      (SecureStorageService.has (cellRemove w st (prefixedKey k)) k
        { storage := st } now).1 = false) := by
  have hgone : cellGet (cellRemove w st (prefixedKey k)) st (prefixedKey k) = none :=
    cellGet_cellRemove_self w st (prefixedKey k)
  have hhas : (SecureStorageService.has (cellRemove w st (prefixedKey k)) k
      { storage := st } now).1 = false := by
    rw [SecureStorageService.has,
      SecureStorageService.get_missing _ k { storage := st } now hgone]
    rfl
  constructor
  · intro s hs hc
    exact ⟨SecureStorageService.get_junk w k { storage := st } now s hc hs, hgone, hhas⟩
  · intro q ca key_ e hca hk hd hc
    refine ⟨?_, hgone, hhas⟩
    rw [SecureStorageService.get_enc w k st now q ca key_ hc hca hk, hd]

def wC6b : World :=
  { emptyWorld with
    localStore := [(prefixedKey "x", .junk "not-json")] }

/-- C6 witness: concrete instantiation of `C6_self_healing` on a backend
string that is not valid JSON. -/
theorem C6_witness :
    SecureStorageService.get wC6b "x" { storage := StorageType.localT } 0 =
      (none, cellRemove wC6b .localT (prefixedKey "x")) ∧
    cellGet (cellRemove wC6b .localT (prefixedKey "x")) .localT (prefixedKey "x") = none ∧
    (SecureStorageService.has (cellRemove wC6b .localT (prefixedKey "x")) "x"
      { storage := StorageType.localT } 0).1 = false := by
  exact (C6_self_healing wC6b "x" .localT 0).1 "not-json" (by decide) rfl


/-! ## Frame lemmas for the password-mode scenarios -/

theorem saveSalt_cryptoAvailable (w : World) (s : List Nat) :
    (SecureStorageService.saveSalt w s).cryptoAvailable = w.cryptoAvailable := by
  rw [SecureStorageService.saveSalt]
  split <;> rfl

theorem saveSalt_localAvailable (w : World) (s : List Nat) :
    (SecureStorageService.saveSalt w s).localAvailable = w.localAvailable := by
  rw [SecureStorageService.saveSalt]
  split <;> rfl

theorem saveSalt_encryptionKey (w : World) (s : List Nat) :
    (SecureStorageService.saveSalt w s).encryptionKey = w.encryptionKey := by
  rw [SecureStorageService.saveSalt]
  split <;> rfl

theorem saveSalt_ctr (w : World) (s : List Nat) :
    (SecureStorageService.saveSalt w s).ctr = w.ctr := by
  rw [SecureStorageService.saveSalt]
  split <;> rfl

theorem saveSalt_rng (w : World) (s : List Nat) :
    (SecureStorageService.saveSalt w s).rng = w.rng := by
  rw [SecureStorageService.saveSalt]
  split <;> rfl

theorem saveSalt_localStore (w : World) (s : List Nat) (h : w.localAvailable = true) :
    (SecureStorageService.saveSalt w s).localStore =
      storeSet w.localStore (prefixStr ++ "_salt")
        (.json (.arr (s.map (fun b => .num (Int.ofNat b))))) := by
  rw [SecureStorageService.saveSalt, if_pos h]

/-- `loadSalt` reads only `localAvailable` and the salt cell. -/
theorem loadSalt_eq_of (w' w : World)
    (h1 : w'.localAvailable = w.localAvailable)
    (h2 : storeGet w'.localStore (prefixStr ++ "_salt") =
      storeGet w.localStore (prefixStr ++ "_salt")) :
    SecureStorageService.loadSalt w' = SecureStorageService.loadSalt w := by
  rw [SecureStorageService.loadSalt, SecureStorageService.loadSalt, h1, h2]

theorem resolveStore_local (w : World) (h : w.localAvailable = true) :
    resolveStore w .localT = .locS := by
  rw [resolveStore, if_pos h]

/-- `cellSet` on the local backend when `localStorage` is available. -/
theorem cellSet_local (w : World) (k : String) (c : Cell) (h : w.localAvailable = true) :
    cellSet w .localT k c = { w with localStore := storeSet w.localStore k c } := by
  rw [cellSet, resolveStore_local w h]
  rfl

/-- `cellGet` on the local backend when `localStorage` is available. -/
theorem cellGet_local (w : World) (k : String) (h : w.localAvailable = true) :
    cellGet w .localT k = storeGet w.localStore k := by
  rw [cellGet, resolveStore_local w h]
  rfl

/-- `new Uint8Array` round-trips the salt the service persisted. -/
theorem uint8ArrayOfJson_roundtrip (bs : List Nat) :
    (∀ b ∈ bs, b < 256) →
    SecureStorageService.uint8ArrayOfJson (.arr (bs.map (fun b => .num (Int.ofNat b)))) = bs := by
  induction bs with
  | nil => intro _; rfl
  | cons b bs ih =>
    intro h
    have hb : b < 256 := h b (by simp)
    have ihh := ih (fun x hx => h x (by simp [hx]))
    simp only [SecureStorageService.uint8ArrayOfJson, List.map_cons, List.cons.injEq] at ihh ⊢
    refine ⟨?_, ihh⟩
    show ((b : Int) % 256).toNat = b
    omega

theorem drawAt_lt (w : World) (n len : Nat) : ∀ b ∈ drawAt w n len, b < 256 := by
  intro b hb
  rw [drawAt] at hb
  obtain ⟨j, _, hj⟩ := List.mem_map.mp hb
  omega

theorem drawAt_length (w : World) (n len : Nat) : (drawAt w n len).length = len := by
  simp [drawAt]

/-- Characterization of `initialize` in password mode with a usable password:
reuses the persisted salt when present, otherwise draws and persists a fresh
one; either way the key is the PBKDF2 derivation at 100000 iterations. -/
theorem initPassword_eq (w : World) (pw : String)
    (hca : w.cryptoAvailable = true) (hpw : pw ≠ "") :
    SecureStorageService.initializeStorage w
      { keyMode := .password, password := some pw, key := none } =
      (match SecureStorageService.loadSalt w with
       | some s =>
          ({ w with
              encryptionKey := some (.derived pw s 100000)
              keySalt := some s
              initialized := true }, none)
       | none =>
          ({ SecureStorageService.saveSalt
              { w with
                  ctr := w.ctr + 1
                  encryptionKey := some (.derived pw (drawAt w w.ctr 16) 100000)
                  keySalt := some (drawAt w w.ctr 16) }
              (drawAt w w.ctr 16) with initialized := true }, none)) := by
  rw [SecureStorageService.initializeStorage]
  simp only [hca, Bool.not_true, Bool.false_eq_true, if_false]
  cases hsalt : SecureStorageService.loadSalt w with
  | some s =>
    simp [hpw, CryptoService.deriveKey, hca, hsalt]
  | none =>
    simp [hpw, CryptoService.deriveKey, CryptoService.generateSalt, drawBytes, hca, hsalt]


theorem cellSet_localAvailable (w : World) (st : StorageType) (k : String) (c : Cell) :
    (cellSet w st k c).localAvailable = w.localAvailable := writeStore_localAvailable _ _ _

theorem cellSet_keySalt (w : World) (st : StorageType) (k : String) (c : Cell) :
    (cellSet w st k c).keySalt = w.keySalt := writeStore_keySalt _ _ _

/-- Core of the destroy/re-initialize scenario: from a password-keyed world
whose salt cell re-derives exactly the loaded key, the sequence
`set; destroy; initialize(same password); get` returns the stored value. -/
theorem C4_core (w1 : World) (pw k : String) (v : Json) (now1 now2 : Nat)
    (K : CryptoKey) (s : List Nat)
    (h1ca : w1.cryptoAvailable = true) (h1la : w1.localAvailable = true)
    (h1key : w1.encryptionKey = some K)
    (hsalt1 : SecureStorageService.loadSalt w1 = some s)
    (hK : K = .derived pw s 100000)
    (hpw : pw ≠ "") (hk : k ≠ "_salt") :
    (SecureStorageService.get
      (SecureStorageService.initializeStorage
        (SecureStorageService.destroy
          (SecureStorageService.set w1 k v {} now1).1)
        { keyMode := .password, password := some pw, key := none }).1
      k {} now2).1 = some v := by
  have hsaltne : prefixStr ++ "_salt" ≠ prefixedKey k := by
    intro heq
    exact hk ((prefixedKey_inj "_salt" k heq).symm)
  -- step 2: the write
  have hset := SecureStorageService.set_enc_eq w1 k v {} now1 K h1key rfl h1ca
  set P : EncryptedPayload :=
    { ciphertext := aeadEncrypt K (drawAt w1 w1.ctr 12) (encJson v),
      iv := drawAt w1 w1.ctr 12, salt := none, algorithm := "AES-GCM-256" } with hP
  set w2 : World := (SecureStorageService.set w1 k v {} now1).1 with hw2
  have hw2eq : w2 = cellSet { w1 with ctr := w1.ctr + 1 } .localT (prefixedKey k)
      (.json (encryptedItemJson P now1 none none)) := by
    rw [hw2, hset]
    rfl
  have hw2ca : w2.cryptoAvailable = true := by
    rw [hw2eq, cellSet_cryptoAvailable]
    exact h1ca
  have hw2la : w2.localAvailable = true := by
    rw [hw2eq, cellSet_localAvailable]
    exact h1la
  have hw2cell : cellGet w2 .localT (prefixedKey k) =
      some (.json (encryptedItemJson P now1 none none)) := by
    rw [hw2eq]
    exact cellGet_cellSet_self _ _ _ _
  have hw2salt : storeGet w2.localStore (prefixStr ++ "_salt") =
      storeGet w1.localStore (prefixStr ++ "_salt") := by
    rw [hw2eq, cellSet_local _ _ _ (show ({ w1 with ctr := w1.ctr + 1 } : World).localAvailable = true from h1la)]
    exact storeGet_set_ne _ _ _ _ hsaltne
  -- step 3: destroy; step 4: re-initialize with the same password
  have h3ca : (SecureStorageService.destroy w2).cryptoAvailable = true := hw2ca
  have hload3 : SecureStorageService.loadSalt (SecureStorageService.destroy w2) = some s := by
    rw [loadSalt_eq_of (SecureStorageService.destroy w2) w1 (by rw [show (SecureStorageService.destroy w2).localAvailable = w2.localAvailable from rfl, hw2la, h1la]) hw2salt]
    exact hsalt1
  have hinit2 := initPassword_eq (SecureStorageService.destroy w2) pw h3ca hpw
  rw [hload3] at hinit2
  set w4 : World :=
    { SecureStorageService.destroy w2 with
        encryptionKey := some (.derived pw s 100000)
        keySalt := some s
        initialized := true } with hw4
  have hinit2' : (SecureStorageService.initializeStorage (SecureStorageService.destroy w2)
      { keyMode := .password, password := some pw, key := none }).1 = w4 := by
    rw [hinit2]
  have h4ca : w4.cryptoAvailable = true := hw2ca
  have h4la : w4.localAvailable = true := hw2la
  have h4key : w4.encryptionKey = some K := by
    rw [hw4, hK]
  have hw2cellS : storeGet w2.localStore (prefixedKey k) =
      some (.json (encryptedItemJson P now1 none none)) := by
    rw [← cellGet_local w2 (prefixedKey k) hw2la]
    exact hw2cell
  have hw4cell : cellGet w4 .localT (prefixedKey k) =
      some (.json (encryptedItemJson P now1 none none)) := by
    rw [cellGet_local w4 (prefixedKey k) h4la]
    exact hw2cellS
  -- step 5: the read
  show (SecureStorageService.get
      (SecureStorageService.initializeStorage (SecureStorageService.destroy w2)
        { keyMode := .password, password := some pw, key := none }).1
      k {} now2).1 = some v
  rw [hinit2']
  have hget := SecureStorageService.get_enc w4 k .localT now2 P now1 K hw4cell h4ca h4key
  have hdec : aeadDecrypt K P.iv P.ciphertext = .ok v := by
    show aeadDecrypt K (drawAt w1 w1.ctr 12)
      (aeadEncrypt K (drawAt w1 w1.ctr 12) (encJson v)) = .ok v
    exact aeadDecrypt_aeadEncrypt K _ v
  rw [hdec] at hget
  rw [show ({} : SecureStorageOptions) = { storage := StorageType.localT } from rfl, hget]


/-- C4 (amended: for keys other than the reserved name "_salt"): a value
stored under a password-derived key survives `destroy();
initialize({password})` with the same password — `destroy` discards only
in-memory key material, and re-initialising reuses the persisted salt, so the
identical key is re-derived and `get` returns the stored value. -/
theorem C4_password_roundtrip (w : World) (pw k : String) (v : Json) (now1 now2 : Nat)
    (hca : w.cryptoAvailable = true) (hla : w.localAvailable = true)
    (hpw : pw ≠ "") (hk : k ≠ "_salt") :
    (SecureStorageService.get
      (SecureStorageService.initializeStorage
        (SecureStorageService.destroy
          (SecureStorageService.set
            (SecureStorageService.initializeStorage w
              { keyMode := .password, password := some pw, key := none }).1
            k v {} now1).1)
        { keyMode := .password, password := some pw, key := none }).1
      k {} now2).1 = some v := by
  have hinit1 := initPassword_eq w pw hca hpw
  cases hsalt : SecureStorageService.loadSalt w with
  | some s0 =>
    rw [hsalt] at hinit1
    have hw1 : (SecureStorageService.initializeStorage w
        { keyMode := .password, password := some pw, key := none }).1 =
        { w with
            encryptionKey := some (.derived pw s0 100000)
            keySalt := some s0
            initialized := true } := by
      rw [hinit1]
    rw [hw1]
    refine C4_core _ pw k v now1 now2 (.derived pw s0 100000) s0 hca hla rfl ?_ rfl hpw hk
    rw [loadSalt_eq_of
      { w with
          encryptionKey := some (.derived pw s0 100000)
          keySalt := some s0
          initialized := true } w rfl rfl]
    exact hsalt
  | none =>
    rw [hsalt] at hinit1
    set X : World :=
      { w with
          ctr := w.ctr + 1
          encryptionKey := some (.derived pw (drawAt w w.ctr 16) 100000)
          keySalt := some (drawAt w w.ctr 16) } with hX
    have hw1 : (SecureStorageService.initializeStorage w
        { keyMode := .password, password := some pw, key := none }).1 =
        { SecureStorageService.saveSalt X (drawAt w w.ctr 16) with initialized := true } := by
      rw [hinit1]
    rw [hw1]
    have hXla : X.localAvailable = true := hla
    have h1ca : ({ SecureStorageService.saveSalt X (drawAt w w.ctr 16) with
        initialized := true } : World).cryptoAvailable = true := by
      rw [show ({ SecureStorageService.saveSalt X (drawAt w w.ctr 16) with
        initialized := true } : World).cryptoAvailable =
        (SecureStorageService.saveSalt X (drawAt w w.ctr 16)).cryptoAvailable from rfl,
        saveSalt_cryptoAvailable]
      exact hca
    have h1la : ({ SecureStorageService.saveSalt X (drawAt w w.ctr 16) with
        initialized := true } : World).localAvailable = true := by
      rw [show ({ SecureStorageService.saveSalt X (drawAt w w.ctr 16) with
        initialized := true } : World).localAvailable =
        (SecureStorageService.saveSalt X (drawAt w w.ctr 16)).localAvailable from rfl,
        saveSalt_localAvailable]
      exact hla
    have h1key : ({ SecureStorageService.saveSalt X (drawAt w w.ctr 16) with
        initialized := true } : World).encryptionKey =
        some (.derived pw (drawAt w w.ctr 16) 100000) := by
      rw [show ({ SecureStorageService.saveSalt X (drawAt w w.ctr 16) with
        initialized := true } : World).encryptionKey =
        (SecureStorageService.saveSalt X (drawAt w w.ctr 16)).encryptionKey from rfl,
        saveSalt_encryptionKey]
    have hsg : storeGet ({ SecureStorageService.saveSalt X (drawAt w w.ctr 16) with
        initialized := true } : World).localStore (prefixStr ++ "_salt") =
        some (.json (.arr ((drawAt w w.ctr 16).map (fun b => .num (Int.ofNat b))))) := by
      rw [show ({ SecureStorageService.saveSalt X (drawAt w w.ctr 16) with
        initialized := true } : World).localStore =
        (SecureStorageService.saveSalt X (drawAt w w.ctr 16)).localStore from rfl,
        saveSalt_localStore X (drawAt w w.ctr 16) hXla]
      exact storeGet_set_self _ _ _
    have hsalt1 : SecureStorageService.loadSalt
        { SecureStorageService.saveSalt X (drawAt w w.ctr 16) with initialized := true } =
        some (drawAt w w.ctr 16) := by
      rw [SecureStorageService.loadSalt, if_pos h1la, hsg]
      simp only [uint8ArrayOfJson_roundtrip (drawAt w w.ctr 16) (drawAt_lt w w.ctr 16)]
    exact C4_core _ pw k v now1 now2 (.derived pw (drawAt w w.ctr 16) 100000)
      (drawAt w w.ctr 16) h1ca h1la h1key hsalt1 rfl hpw hk

/-- C4 counterexample: storing under the caller key "_salt" overwrites the
persisted salt cell, so re-initialising with the same password derives a
different key and `get` returns absent instead of the stored value. -/
theorem C4_counterexample :
    (SecureStorageService.get
      (SecureStorageService.initializeStorage
        (SecureStorageService.destroy
          (SecureStorageService.set
            (SecureStorageService.initializeStorage emptyWorld
              { keyMode := .password, password := some "p", key := none }).1
            "_salt" (.num 7) {} 0).1)
        { keyMode := .password, password := some "p", key := none }).1
      "_salt" {} 0).1 = none := by
  rfl

/-- C4 witness: concrete instantiation of `C4_password_roundtrip`. -/
theorem C4_witness :
    (SecureStorageService.get
      (SecureStorageService.initializeStorage
        (SecureStorageService.destroy
          (SecureStorageService.set
            (SecureStorageService.initializeStorage emptyWorld
              { keyMode := .password, password := some "p", key := none }).1
            "t" (.num 7) {} 0).1)
        { keyMode := .password, password := some "p", key := none }).1
      "t" {} 0).1 = some (.num 7) := by
  exact C4_password_roundtrip emptyWorld "p" "t" (.num 7) 0 0 rfl rfl
    (by decide) (by decide)


/-! ## `keys`/`clear` lemmas -/

theorem hasPrefixStr_append (x : String) :
    SecureStorageService.hasPrefixStr (prefixStr ++ x) = true := by
  rw [SecureStorageService.hasPrefixStr, String.data_append]
  simp [List.isPrefixOf_iff_prefix, List.prefix_append]

theorem stripPrefixStr_append (x : String) :
    SecureStorageService.stripPrefixStr (prefixStr ++ x) = x := by
  rw [SecureStorageService.stripPrefixStr, String.data_append,
    drop_append_exact prefixStr.data x.data]

theorem storeSet_mem (s : List (String × Cell)) (k : String) (c : Cell) :
    (k, c) ∈ storeSet s k c := by
  induction s with
  | nil => simp [storeSet]
  | cons p s ih =>
    obtain ⟨k', c'⟩ := p
    by_cases h : k' = k
    · simp [storeSet, h]
    · simp only [storeSet, if_neg h]
      exact List.mem_cons_of_mem _ ih

theorem keys_mem_of_cell (w : World) (x : String) (c : Cell)
    (hla : w.localAvailable = true)
    (hmem : (prefixStr ++ x, c) ∈ w.localStore) :
    x ∈ SecureStorageService.keys w { storage := StorageType.localT } := by
  rw [SecureStorageService.keys]
  refine List.mem_map.mpr ⟨(prefixStr ++ x, c), List.mem_filter.mpr ⟨?_, hasPrefixStr_append x⟩,
    stripPrefixStr_append x⟩
  rw [SecureStorageService.enumerablePairs]
  simp only [hla, if_true]
  exact hmem

theorem cellRemove_ctr (w : World) (st : StorageType) (k : String) :
    (cellRemove w st k).ctr = w.ctr := writeStore_ctr _ _ _

theorem cellRemove_rng (w : World) (st : StorageType) (k : String) :
    (cellRemove w st k).rng = w.rng := writeStore_rng _ _ _

theorem cellRemove_localAvailable (w : World) (st : StorageType) (k : String) :
    (cellRemove w st k).localAvailable = w.localAvailable := writeStore_localAvailable _ _ _

/-- The removal loop of `clear` leaves everything but the stores unchanged. -/
theorem clearFold_frame (ks : List String) (st : StorageType) : ∀ w : World,
    (ks.foldl (fun w' k => cellRemove w' st k) w).cryptoAvailable = w.cryptoAvailable ∧
    (ks.foldl (fun w' k => cellRemove w' st k) w).localAvailable = w.localAvailable ∧
    (ks.foldl (fun w' k => cellRemove w' st k) w).encryptionKey = w.encryptionKey ∧
    (ks.foldl (fun w' k => cellRemove w' st k) w).ctr = w.ctr ∧
    (ks.foldl (fun w' k => cellRemove w' st k) w).rng = w.rng := by
  induction ks with
  | nil => intro w; exact ⟨rfl, rfl, rfl, rfl, rfl⟩
  | cons k0 ks ih =>
    intro w
    obtain ⟨h1, h2, h3, h4, h5⟩ := ih (cellRemove w st k0)
    refine ⟨?_, ?_, ?_, ?_, ?_⟩
    · rw [List.foldl_cons, h1, cellRemove_cryptoAvailable]
    · rw [List.foldl_cons, h2, cellRemove_localAvailable]
    · rw [List.foldl_cons, h3, cellRemove_encryptionKey]
    · rw [List.foldl_cons, h4, cellRemove_ctr]
    · rw [List.foldl_cons, h5, cellRemove_rng]

theorem clearFold_preserves_none (ks : List String) (st : StorageType) :
    ∀ (w : World) (k : String), cellGet w st k = none →
    cellGet (ks.foldl (fun w' k' => cellRemove w' st k') w) st k = none := by
  induction ks with
  | nil => intro w k h; exact h
  | cons k0 ks ih =>
    intro w k h
    rw [List.foldl_cons]
    refine ih (cellRemove w st k0) k ?_
    by_cases hk : k = k0
    · subst hk
      exact cellGet_cellRemove_self w st k
    · rw [cellGet_cellRemove_ne w st k0 k hk]
      exact h

theorem clearFold_absent (ks : List String) (st : StorageType) :
    ∀ (w : World) (k : String), k ∈ ks →
    cellGet (ks.foldl (fun w' k' => cellRemove w' st k') w) st k = none := by
  induction ks with
  | nil => intro w k h; cases h
  | cons k0 ks ih =>
    intro w k h
    rcases List.mem_cons.mp h with h | h
    · subst h
      rw [List.foldl_cons]
      exact clearFold_preserves_none ks st _ k (cellGet_cellRemove_self w st k)
    · rw [List.foldl_cons]
      exact ih (cellRemove w st k0) k h


/-- C10: the password-mode salt is persisted under the caller-visible name
"_salt": after a password-mode initialize that persisted a salt, `keys`
reports "_salt" although no caller set it; `clear` deletes the salt cell; and
a later password-mode initialize then draws a fresh salt and derives a
different key from the same password. -/
theorem C10_salt_visibility (w : World) (pw : String)
    (hca : w.cryptoAvailable = true) (hla : w.localAvailable = true) (hpw : pw ≠ "")
    (hno : storeGet w.localStore (prefixStr ++ "_salt") = none)
    (hfresh : drawAt w (w.ctr + 1) 16 ≠ drawAt w w.ctr 16) :
    "_salt" ∈ SecureStorageService.keys
      (SecureStorageService.initializeStorage w
        { keyMode := .password, password := some pw, key := none }).1
      { storage := StorageType.localT } ∧
    cellGet (SecureStorageService.clear
      (SecureStorageService.initializeStorage w
        { keyMode := .password, password := some pw, key := none }).1
      { storage := StorageType.localT }) .localT (prefixStr ++ "_salt") = none ∧
    (SecureStorageService.initializeStorage
      (SecureStorageService.clear
        (SecureStorageService.initializeStorage w
          { keyMode := .password, password := some pw, key := none }).1
        { storage := StorageType.localT })
      { keyMode := .password, password := some pw, key := none }).1.encryptionKey ≠
      (SecureStorageService.initializeStorage w
        { keyMode := .password, password := some pw, key := none }).1.encryptionKey := by
  have hload : SecureStorageService.loadSalt w = none := by
    rw [SecureStorageService.loadSalt, if_pos hla, hno]
  have hinit1 := initPassword_eq w pw hca hpw
  rw [hload] at hinit1
  set s1 : List Nat := drawAt w w.ctr 16 with hs1
  set X : World :=
    { w with
        ctr := w.ctr + 1
        encryptionKey := some (.derived pw s1 100000)
        keySalt := some s1 } with hX
  set W1 : World := { SecureStorageService.saveSalt X s1 with initialized := true } with hW1
  have hw1 : (SecureStorageService.initializeStorage w
      { keyMode := .password, password := some pw, key := none }).1 = W1 := by
    rw [hinit1]
  rw [hw1]
  have hXla : X.localAvailable = true := hla
  have h1la : W1.localAvailable = true := by
    rw [show W1.localAvailable = (SecureStorageService.saveSalt X s1).localAvailable from rfl,
      saveSalt_localAvailable]
    exact hla
  have h1ca : W1.cryptoAvailable = true := by
    rw [show W1.cryptoAvailable = (SecureStorageService.saveSalt X s1).cryptoAvailable from rfl,
      saveSalt_cryptoAvailable]
    exact hca
  have h1key : W1.encryptionKey = some (.derived pw s1 100000) := by
    rw [show W1.encryptionKey = (SecureStorageService.saveSalt X s1).encryptionKey from rfl,
      saveSalt_encryptionKey]
  have h1ctr : W1.ctr = w.ctr + 1 := by
    rw [show W1.ctr = (SecureStorageService.saveSalt X s1).ctr from rfl, saveSalt_ctr]
  have h1rng : W1.rng = w.rng := by
    rw [show W1.rng = (SecureStorageService.saveSalt X s1).rng from rfl, saveSalt_rng]
  have h1store : W1.localStore = storeSet w.localStore (prefixStr ++ "_salt")
      (.json (.arr (s1.map (fun b => .num (Int.ofNat b))))) := by
    rw [show W1.localStore = (SecureStorageService.saveSalt X s1).localStore from rfl,
      saveSalt_localStore X s1 hXla]
  have hmem1 : (prefixStr ++ "_salt",
      (.json (.arr (s1.map (fun b => .num (Int.ofNat b)))) : Cell)) ∈ W1.localStore := by
    rw [h1store]
    exact storeSet_mem _ _ _
  have hsaltmem : prefixStr ++ "_salt" ∈
      (((SecureStorageService.enumerablePairs W1 StorageType.localT).filter
        (fun p => SecureStorageService.hasPrefixStr p.1)).map (fun p => p.1)) := by
    refine List.mem_map.mpr ⟨(prefixStr ++ "_salt",
      (.json (.arr (s1.map (fun b => .num (Int.ofNat b)))) : Cell)), ?_, rfl⟩
    refine List.mem_filter.mpr ⟨?_, hasPrefixStr_append "_salt"⟩
    rw [SecureStorageService.enumerablePairs,
      if_pos (show (SecureStorageService.saveSalt X s1).localAvailable = true from h1la)]
    exact hmem1
  have hclear : SecureStorageService.clear W1 { storage := StorageType.localT } =
      ((((SecureStorageService.enumerablePairs W1 StorageType.localT).filter
        (fun p => SecureStorageService.hasPrefixStr p.1)).map (fun p => p.1)).foldl
        (fun w' k => cellRemove w' StorageType.localT k) W1) := by
    rw [SecureStorageService.clear]
  have hgone : cellGet (SecureStorageService.clear W1 { storage := StorageType.localT })
      .localT (prefixStr ++ "_salt") = none := by
    rw [hclear]
    exact clearFold_absent _ _ W1 _ hsaltmem
  refine ⟨keys_mem_of_cell W1 "_salt" _ h1la hmem1, hgone, ?_⟩
  -- the re-initialize after clear draws a fresh salt
  obtain ⟨h5ca, h5la, _, h5ctr, h5rng⟩ := clearFold_frame
    (((SecureStorageService.enumerablePairs W1 StorageType.localT).filter
      (fun p => SecureStorageService.hasPrefixStr p.1)).map (fun p => p.1))
    StorageType.localT W1
  rw [← hclear] at h5ca h5la h5ctr h5rng
  have h5ca' : (SecureStorageService.clear W1
      { storage := StorageType.localT }).cryptoAvailable = true := by
    rw [h5ca, h1ca]
  have h5la' : (SecureStorageService.clear W1
      { storage := StorageType.localT }).localAvailable = true := by
    rw [h5la, h1la]
  have hload5 : SecureStorageService.loadSalt
      (SecureStorageService.clear W1 { storage := StorageType.localT }) = none := by
    have hsg5 : storeGet (SecureStorageService.clear W1
        { storage := StorageType.localT }).localStore (prefixStr ++ "_salt") = none := by
      rw [← cellGet_local _ _ h5la']
      exact hgone
    rw [SecureStorageService.loadSalt, if_pos h5la', hsg5]
  have hinit2 := initPassword_eq
    (SecureStorageService.clear W1 { storage := StorageType.localT }) pw h5ca' hpw
  rw [hload5] at hinit2
  have hkey2 : (SecureStorageService.initializeStorage
      (SecureStorageService.clear W1 { storage := StorageType.localT })
      { keyMode := .password, password := some pw, key := none }).1.encryptionKey =
      some (.derived pw (drawAt w (w.ctr + 1) 16) 100000) := by
    rw [hinit2]
    show (SecureStorageService.saveSalt _ _).encryptionKey = _
    rw [saveSalt_encryptionKey]
    have hd : drawAt (SecureStorageService.clear W1 { storage := StorageType.localT })
        (SecureStorageService.clear W1 { storage := StorageType.localT }).ctr 16 =
        drawAt w (w.ctr + 1) 16 := by
      rw [drawAt, drawAt, h5rng, h1rng, h5ctr, h1ctr]
    rw [hd]
  rw [hkey2, h1key]
  intro heq
  have hseq := (CryptoKey.derived.injEq .. ▸ (Option.some.injEq .. ▸ heq)).2.1
  exact hfresh (hs1 ▸ hseq)


/-! ## A pure view of `get` (for the rotation proof) -/

/-- The value `get` returns, as a function of the cell, the key state and the
options — mirrors `get` branch by branch. -/
def getV (cell : Option Cell) (ek : Option CryptoKey) (ca : Bool) (ver : Option Int)
    (now : Nat) : Option Json :=
  match cell with
  | none => none
  | some (.junk _) => none
  | some (.json item) =>
      if expiryHit item now then none
      else if versionMiss item ver then none
      else if truthyOpt (Json.lookup item "encrypted") then
        if ca then
          match ek with
          | some key_ =>
              match Json.lookup item "payload" with
              | some pj =>
                  match payloadBytesOfJson pj with
                  | some ctiv =>
                      match aeadDecrypt key_ ctiv.2 ctiv.1 with
                      | .ok v => some v
                      | .error _ => none
                  | none => none
              | none => none
          | none => none
        else none
      else Json.lookup item "value"

theorem get_fst (w : World) (k : String) (opts : SecureStorageOptions) (now : Nat) :
    (SecureStorageService.get w k opts now).1 =
      getV (cellGet w opts.storage (prefixedKey k)) w.encryptionKey w.cryptoAvailable
        opts.version now := by
  rw [SecureStorageService.get]
  cases cellGet w opts.storage (prefixedKey k) with
  | none => rfl
  | some c =>
    cases c with
    | junk s =>
      dsimp only [getV]
      split <;> rfl
    | json item =>
      dsimp only [getV]
      repeat' split
      all_goals rfl

theorem get_world_cases (w : World) (k : String) (opts : SecureStorageOptions) (now : Nat) :
    (SecureStorageService.get w k opts now).2 = w ∨
    (SecureStorageService.get w k opts now).2 =
      cellRemove w opts.storage (prefixedKey k) := by
  rw [SecureStorageService.get]
  cases cellGet w opts.storage (prefixedKey k) with
  | none => exact Or.inl rfl
  | some c =>
    cases c with
    | junk s =>
      dsimp only
      split
      · exact Or.inl rfl
      · exact Or.inr rfl
    | json item =>
      dsimp only
      repeat' split
      all_goals first | exact Or.inl rfl | exact Or.inr rfl

theorem get_snd_of_some (w : World) (k : String) (opts : SecureStorageOptions) (now : Nat)
    (v : Json) (h : (SecureStorageService.get w k opts now).1 = some v) :
    (SecureStorageService.get w k opts now).2 = w := by
  rw [SecureStorageService.get] at h ⊢
  revert h
  cases cellGet w opts.storage (prefixedKey k) with
  | none => intro h; exact Option.noConfusion h
  | some c =>
    cases c with
    | junk s =>
      dsimp only
      split
      all_goals intro h
      all_goals exact Option.noConfusion h
    | json item =>
      dsimp only
      repeat' split
      all_goals intro h
      all_goals first | rfl | exact Option.noConfusion h

theorem get_congr_fst (w' w : World) (k : String) (opts : SecureStorageOptions) (now : Nat)
    (hcell : cellGet w' opts.storage (prefixedKey k) = cellGet w opts.storage (prefixedKey k))
    (hkey : w'.encryptionKey = w.encryptionKey)
    (hca : w'.cryptoAvailable = w.cryptoAvailable) :
    (SecureStorageService.get w' k opts now).1 = (SecureStorageService.get w k opts now).1 := by
  rw [get_fst, get_fst, hcell, hkey, hca]

theorem storeGet_some_mem (s : List (String × Cell)) (k : String) (c : Cell)
    (h : storeGet s k = some c) : (k, c) ∈ s := by
  induction s with
  | nil => cases h
  | cons p s ih =>
    obtain ⟨k', c'⟩ := p
    rw [storeGet] at h
    by_cases hk : k' = k
    · rw [if_pos hk] at h
      subst hk
      obtain rfl := Option.some.injEq .. ▸ h
      exact List.mem_cons_self _ _
    · rw [if_neg hk] at h
      exact List.mem_cons_of_mem _ (ih h)

/-- Whether the `keys`/`clear` enumeration can see the selected backend (the
browser-`Storage` iteration silently sees nothing when the underlying storage
is unavailable and the memory wrapper is substituted). -/
def storageEnumerable (w : World) : StorageType → Bool
  | .memoryT => true
  | .localT => w.localAvailable
  | .sessionT => w.sessionAvailable

theorem enumerablePairs_eq_resolved (w : World) (st : StorageType)
    (h : storageEnumerable w st = true) :
    SecureStorageService.enumerablePairs w st = readStore w (resolveStore w st) := by
  cases st with
  | memoryT => rfl
  | localT =>
    rw [storageEnumerable] at h
    rw [SecureStorageService.enumerablePairs, resolveStore, if_pos h, if_pos h]
    rfl
  | sessionT =>
    rw [storageEnumerable] at h
    rw [SecureStorageService.enumerablePairs, resolveStore, if_pos h, if_pos h]
    rfl

theorem keys_mem_of_cellGet (w : World) (st : StorageType) (k : String) (c : Cell)
    (henum : storageEnumerable w st = true)
    (hc : cellGet w st (prefixedKey k) = some c) :
    k ∈ SecureStorageService.keys w { storage := st } := by
  rw [SecureStorageService.keys]
  have hmem : (prefixedKey k, c) ∈ SecureStorageService.enumerablePairs w st := by
    rw [enumerablePairs_eq_resolved w st henum]
    exact storeGet_some_mem _ _ _ hc
  exact List.mem_map.mpr ⟨(prefixedKey k, c),
    List.mem_filter.mpr ⟨hmem, hasPrefixStr_append k⟩, stripPrefixStr_append k⟩

theorem get_step_fields (w : World) (k0 : String) (opts : SecureStorageOptions) (now : Nat) :
    (SecureStorageService.get w k0 opts now).2.encryptionKey = w.encryptionKey ∧
    (SecureStorageService.get w k0 opts now).2.cryptoAvailable = w.cryptoAvailable := by
  rcases get_world_cases w k0 opts now with h | h
  · rw [h]; exact ⟨rfl, rfl⟩
  · rw [h]
    exact ⟨cellRemove_encryptionKey _ _ _, cellRemove_cryptoAvailable _ _ _⟩

theorem get_fst_step (w : World) (k0 k : String) (st : StorageType) (now : Nat) (v : Json)
    (hv : (SecureStorageService.get w k { storage := st } now).1 = some v) :
    (SecureStorageService.get (SecureStorageService.get w k0 { storage := st } now).2
      k { storage := st } now).1 = some v := by
  by_cases hk : k = k0
  · subst hk
    rw [get_snd_of_some w k { storage := st } now v hv]
    exact hv
  · rcases get_world_cases w k0 { storage := st } now with h | h
    · rw [h]; exact hv
    · rw [h]
      refine (get_congr_fst _ w k { storage := st } now ?_ ?_ ?_).trans hv
      · exact cellGet_cellRemove_ne w st (prefixedKey k0) (prefixedKey k)
          (fun he => hk (prefixedKey_inj _ _ he))
      · exact cellRemove_encryptionKey _ _ _
      · exact cellRemove_cryptoAvailable _ _ _

theorem collectItems_spec (ks : List String) (w : World) (st : StorageType) (now : Nat) :
    (SecureStorageService.collectItems w ks st now).2.encryptionKey = w.encryptionKey ∧
    (SecureStorageService.collectItems w ks st now).2.cryptoAvailable = w.cryptoAvailable ∧
    ∀ k v, (SecureStorageService.get w k { storage := st } now).1 = some v →
      (k ∈ ks → (k, v) ∈ (SecureStorageService.collectItems w ks st now).1) ∧
      (∀ p ∈ (SecureStorageService.collectItems w ks st now).1, p.1 = k → p.2 = v) := by
  induction ks generalizing w with
  | nil =>
    refine ⟨rfl, rfl, fun k v hv => ⟨fun hmem => absurd hmem (List.not_mem_nil k), ?_⟩⟩
    intro p hp
    exact absurd hp (List.not_mem_nil p)
  | cons k0 rest ih =>
    cases h0 : SecureStorageService.get w k0 { storage := st } now with
    | mk v0 w1 =>
      have hfld := get_step_fields w k0 { storage := st } now
      rw [h0] at hfld
      cases v0 with
      | none =>
        have hred : SecureStorageService.collectItems w (k0 :: rest) st now =
            SecureStorageService.collectItems w1 rest st now := by
          rw [SecureStorageService.collectItems, h0]
        obtain ⟨ihk, ihc, ihP⟩ := ih w1
        rw [hred]
        refine ⟨ihk.trans hfld.1, ihc.trans hfld.2, fun k v hv => ?_⟩
        have hv1 : (SecureStorageService.get w1 k { storage := st } now).1 = some v := by
          have := get_fst_step w k0 k st now v hv
          rw [h0] at this
          exact this
        refine ⟨fun hmem => ?_, (ihP k v hv1).2⟩
        rcases List.mem_cons.mp hmem with rfl | hmem
        · rw [h0] at hv
          exact Option.noConfusion hv
        · exact (ihP k v hv1).1 hmem
      | some val =>
        have hw1 : w1 = w := by
          have := get_snd_of_some w k0 { storage := st } now val
            (by rw [h0])
          rw [h0] at this
          exact this
        subst hw1
        have hred : SecureStorageService.collectItems w1 (k0 :: rest) st now =
            ((k0, val) :: (SecureStorageService.collectItems w1 rest st now).1,
              (SecureStorageService.collectItems w1 rest st now).2) := by
          rw [SecureStorageService.collectItems, h0]
        obtain ⟨ihk, ihc, ihP⟩ := ih w1
        rw [hred]
        refine ⟨ihk, ihc, fun k v hv => ?_⟩
        refine ⟨fun hmem => ?_, fun p hp hpk => ?_⟩
        · rcases List.mem_cons.mp hmem with rfl | hmem
          · rw [h0] at hv
            obtain rfl := Option.some.injEq .. ▸ hv
            exact List.mem_cons_self _ _
          · exact List.mem_cons_of_mem _ ((ihP k v hv).1 hmem)
        · rcases List.mem_cons.mp hp with rfl | hp
          · dsimp at hpk ⊢
            subst hpk
            rw [h0] at hv
            exact Option.some.inj hv
          · exact (ihP k v hv).2 p hp hpk

theorem initStorage_key (w : World) (cfg : SecureStorageConfig) (w2 : World)
    (hca : w.cryptoAvailable = true)
    (h : SecureStorageService.initializeStorage w cfg = (w2, none)) :
    (∃ K2, w2.encryptionKey = some K2) ∧ w2.cryptoAvailable = true := by
  obtain ⟨km, pw, key0⟩ := cfg
  rw [SecureStorageService.initializeStorage] at h
  simp only [hca, Bool.not_true, Bool.false_eq_true, if_false] at h
  cases km with
  | session =>
    simp only [CryptoService.generateKey, hca, if_true, drawBytes, Prod.mk.injEq] at h
    obtain ⟨hw, -⟩ := h
    rw [← hw]
    exact ⟨⟨_, rfl⟩, rfl⟩
  | password =>
    cases pw with
    | none =>
      simp only [Prod.mk.injEq] at h
      exact Option.noConfusion h.2
    | some p =>
      dsimp only at h
      by_cases hp : p = ""
      · rw [if_pos hp] at h
        simp only [Prod.mk.injEq] at h
        exact Option.noConfusion h.2
      · rw [if_neg hp] at h
        cases hsalt : SecureStorageService.loadSalt w with
        | some s =>
          simp only [hsalt, CryptoService.deriveKey, hca, if_true, Option.isNone_some,
            Bool.false_eq_true, if_false, Prod.mk.injEq] at h
          obtain ⟨hw, -⟩ := h
          rw [← hw]
          exact ⟨⟨_, rfl⟩, rfl⟩
        | none =>
          simp only [hsalt, CryptoService.deriveKey, hca, if_true,
            CryptoService.generateSalt, drawBytes, Option.isNone_none,
            Prod.mk.injEq] at h
          obtain ⟨hw, -⟩ := h
          rw [← hw]
          refine ⟨⟨CryptoKey.derived p (drawAt w w.ctr 16) 100000, ?_⟩, ?_⟩
          · dsimp only
            rw [saveSalt_encryptionKey]
          · dsimp only
            rw [saveSalt_cryptoAvailable]
  | provided =>
    cases key0 with
    | none =>
      simp only [Prod.mk.injEq] at h
      exact Option.noConfusion h.2
    | some key_ =>
      dsimp only at h
      simp only [Prod.mk.injEq] at h
      obtain ⟨hw, -⟩ := h
      rw [← hw]
      exact ⟨⟨_, rfl⟩, rfl⟩

theorem cellGet_ctr (w : World) (c : Nat) (st : StorageType) (k : String) :
    cellGet { w with ctr := c } st k = cellGet w st k := rfl

theorem setAll_ok (items : List (String × Json)) (w : World) (st : StorageType) (now : Nat)
    (K : CryptoKey) (hk : w.encryptionKey = some K) (hca : w.cryptoAvailable = true) :
    (SecureStorageService.setAll w items st now).2 = none ∧
    (SecureStorageService.setAll w items st now).1.encryptionKey = some K ∧
    (SecureStorageService.setAll w items st now).1.cryptoAvailable = true ∧
    ∀ k, (∀ p ∈ items, p.1 ≠ k) →
      cellGet (SecureStorageService.setAll w items st now).1 st (prefixedKey k) =
        cellGet w st (prefixedKey k) := by
  induction items generalizing w with
  | nil => exact ⟨rfl, hk, hca, fun k _ => rfl⟩
  | cons p rest ih =>
    obtain ⟨k0, v0⟩ := p
    have hset := SecureStorageService.set_enc_eq w k0 v0 { storage := st } now K hk rfl hca
    have hred : SecureStorageService.setAll w ((k0, v0) :: rest) st now =
        SecureStorageService.setAll (cellSet { w with ctr := w.ctr + 1 } st (prefixedKey k0)
          (.json (encryptedItemJson
            { ciphertext := aeadEncrypt K (drawAt w w.ctr 12) (encJson v0),
              iv := drawAt w w.ctr 12, salt := none, algorithm := "AES-GCM-256" }
            now none none))) rest st now := by
      rw [SecureStorageService.setAll, hset]
      rfl
    rw [hred]
    obtain ⟨ih1, ih2, ih3, ih4⟩ := ih (cellSet { w with ctr := w.ctr + 1 } st (prefixedKey k0)
      (.json (encryptedItemJson
        { ciphertext := aeadEncrypt K (drawAt w w.ctr 12) (encJson v0),
          iv := drawAt w w.ctr 12, salt := none, algorithm := "AES-GCM-256" }
        now none none)))
      ((cellSet_encryptionKey _ _ _ _).trans hk) ((cellSet_cryptoAvailable _ _ _ _).trans hca)
    refine ⟨ih1, ih2, ih3, fun k hknot => ?_⟩
    rw [ih4 k (fun p hp => hknot p (List.mem_cons_of_mem _ hp))]
    rw [cellGet_cellSet_ne _ st _ _ _
      (fun he => hknot (k0, v0) (List.mem_cons_self _ _) (prefixedKey_inj _ _ he).symm)]
    exact cellGet_ctr w _ st (prefixedKey k)

theorem setAll_last (items : List (String × Json)) (w : World) (st : StorageType) (now : Nat)
    (K : CryptoKey) (k : String) (v : Json)
    (hk : w.encryptionKey = some K) (hca : w.cryptoAvailable = true)
    (hmem : (k, v) ∈ items) (huniq : ∀ p ∈ items, p.1 = k → p.2 = v) :
    ∃ iv, cellGet (SecureStorageService.setAll w items st now).1 st (prefixedKey k) =
      some (.json (encryptedItemJson
        { ciphertext := aeadEncrypt K iv (encJson v), iv := iv, salt := none,
          algorithm := "AES-GCM-256" } now none none)) := by
  induction items generalizing w with
  | nil => cases hmem
  | cons p rest ih =>
    obtain ⟨k0, v0⟩ := p
    have hset := SecureStorageService.set_enc_eq w k0 v0 { storage := st } now K hk rfl hca
    have hred : SecureStorageService.setAll w ((k0, v0) :: rest) st now =
        SecureStorageService.setAll (cellSet { w with ctr := w.ctr + 1 } st (prefixedKey k0)
          (.json (encryptedItemJson
            { ciphertext := aeadEncrypt K (drawAt w w.ctr 12) (encJson v0),
              iv := drawAt w w.ctr 12, salt := none, algorithm := "AES-GCM-256" }
            now none none))) rest st now := by
      rw [SecureStorageService.setAll, hset]
      rfl
    rw [hred]
    by_cases hrestk : ∃ p ∈ rest, p.1 = k
    · obtain ⟨⟨k1, v1⟩, hp1, hpk1⟩ := hrestk
      dsimp only at hpk1
      subst hpk1
      have hv1 : v1 = v := huniq (k1, v1) (List.mem_cons_of_mem _ hp1) rfl
      subst hv1
      exact ih _ ((cellSet_encryptionKey _ _ _ _).trans hk)
        ((cellSet_cryptoAvailable _ _ _ _).trans hca) hp1
        (fun p hp hpk => huniq p (List.mem_cons_of_mem _ hp) hpk)
    · rcases List.mem_cons.mp hmem with heq | hmem2
      · have hk0 : k0 = k := (congrArg Prod.fst heq).symm
        have hv0 : v0 = v := (congrArg Prod.snd heq).symm
        subst hk0
        subst hv0
        refine ⟨drawAt w w.ctr 12, ?_⟩
        have hframe := (setAll_ok rest
          (cellSet { w with ctr := w.ctr + 1 } st (prefixedKey k0)
            (.json (encryptedItemJson
              { ciphertext := aeadEncrypt K (drawAt w w.ctr 12) (encJson v0),
                iv := drawAt w w.ctr 12, salt := none, algorithm := "AES-GCM-256" }
              now none none)))
          st now K ((cellSet_encryptionKey _ _ _ _).trans hk)
          ((cellSet_cryptoAvailable _ _ _ _).trans hca)).2.2.2 k0
          (fun p hp hpk => hrestk ⟨p, hp, hpk⟩)
        rw [hframe, cellGet_cellSet_self]
      · exact absurd ⟨(k, v), hmem2, rfl⟩ hrestk

/-! ## C9: key rotation -/

/-- The stored key for the rotation counterexample. -/
def keyC9 : CryptoKey := .random [7]

/-- The stored IV for the rotation counterexample. -/
def ivC9 : List Nat := List.replicate 12 3

/-- A world whose browser `localStorage` is unavailable (so `local`-selector
cells silently live in the memory fallback) holding one encrypted entry
readable with the current key. -/
def wC9 : World :=
  { emptyWorld with
      localAvailable := false
      encryptionKey := some keyC9
      initialized := true
      memoryStore := [(prefixedKey "t", .json (encryptedItemJson
        { ciphertext := aeadEncrypt keyC9 ivC9 (encJson (.num 5)), iv := ivC9,
          salt := none, algorithm := "AES-GCM-256" } 0 none none))] }

/-- C9, counterexample to the unconditional claim: with the browser storage
unavailable, the entry is readable before `rotateKey`, `rotateKey` reports
success (it enumerated nothing, so it re-read and re-wrote nothing), yet the
same `get` afterwards no longer returns the value — the old-key ciphertext is
still there but the service now holds the new key. -/
theorem C9_counterexample :
    (SecureStorageService.get wC9 "t" { storage := StorageType.localT } 0).1 =
      some (.num 5) ∧
    (SecureStorageService.rotateKey wC9
      { keyMode := .session, password := none, key := none } StorageType.localT 0).2 =
      none ∧
    (SecureStorageService.get
      (SecureStorageService.rotateKey wC9
        { keyMode := .session, password := none, key := none } StorageType.localT 0).1
      "t" { storage := StorageType.localT } 0).1 = none := by
  refine ⟨?_, rfl, rfl⟩
  have h1 := SecureStorageService.get_enc wC9 "t" .localT 0
    { ciphertext := aeadEncrypt keyC9 ivC9 (encJson (.num 5)), iv := ivC9,
      salt := none, algorithm := "AES-GCM-256" } 0 keyC9 rfl rfl rfl
  rw [h1]
  dsimp only
  rw [aeadDecrypt_aeadEncrypt]

/-- C9 (amended): provided the selected backend is enumerable by the
`keys`/`clear` iteration (the memory map always is; browser `local`/`session`
storage only while actually available), a successful `rotateKey` keeps every
previously readable key readable with an unchanged value. -/
theorem C9_rotation_roundtrip (w wr : World) (cfg : SecureStorageConfig)
    (st : StorageType) (now : Nat) (k : String) (v : Json)
    (henum : storageEnumerable w st = true)
    (hrot : SecureStorageService.rotateKey w cfg st now = (wr, none))
    (hv : (SecureStorageService.get w k { storage := st } now).1 = some v) :
    (SecureStorageService.get wr k { storage := st } now).1 = some v := by
  rw [SecureStorageService.rotateKey] at hrot
  cases hie : SecureStorageService.isEncryptionAvailable w with
  | false =>
    rw [hie] at hrot
    simp only [Bool.not_false, if_true, Prod.mk.injEq] at hrot
    exact Option.noConfusion hrot.2
  | true =>
    rw [hie] at hrot
    simp only [Bool.not_true, Bool.false_eq_true, if_false] at hrot
    have hie2 := hie
    simp only [SecureStorageService.isEncryptionAvailable, CryptoService.isAvailable,
      Bool.and_eq_true] at hie2
    have hca : w.cryptoAvailable = true := hie2.1
    cases hcol : SecureStorageService.collectItems w
        (SecureStorageService.keys w { storage := st }) st now with
    | mk items w1 =>
      rw [hcol] at hrot
      dsimp only at hrot
      cases hini : SecureStorageService.initializeStorage w1 cfg with
      | mk w2 e2 =>
        rw [hini] at hrot
        cases e2 with
        | some err =>
          dsimp only at hrot
          exact Option.noConfusion (congrArg Prod.snd hrot)
        | none =>
          dsimp only at hrot
          obtain ⟨hk1, hc1, hP⟩ := collectItems_spec
            (SecureStorageService.keys w { storage := st }) w st now
          rw [hcol] at hk1 hc1 hP
          have hca1 : w1.cryptoAvailable = true := hc1.trans hca
          obtain ⟨⟨K2, hK2⟩, hca2⟩ := initStorage_key w1 cfg w2 hca1 hini
          have hcell : ∃ c, cellGet w st (prefixedKey k) = some c := by
            cases hcg : cellGet w st (prefixedKey k) with
            | none =>
              exfalso
              rw [get_fst] at hv
              dsimp only at hv
              rw [hcg] at hv
              exact Option.noConfusion hv
            | some c => exact ⟨c, rfl⟩
          obtain ⟨c, hcg⟩ := hcell
          have hmemks : k ∈ SecureStorageService.keys w { storage := st } :=
            keys_mem_of_cellGet w st k c henum hcg
          have hitems := hP k v hv
          have hmem : (k, v) ∈ items := hitems.1 hmemks
          have huniq : ∀ p ∈ items, p.1 = k → p.2 = v := hitems.2
          obtain ⟨iv, hcellr⟩ := setAll_last items w2 st now K2 k v hK2 hca2 hmem huniq
          have hwr : (SecureStorageService.setAll w2 items st now).1 = wr :=
            congrArg Prod.fst hrot
          rw [hwr] at hcellr
          have hkr : wr.encryptionKey = some K2 := by
            have h2 := (setAll_ok items w2 st now K2 hK2 hca2).2.1
            rw [hwr] at h2
            exact h2
          have hcar : wr.cryptoAvailable = true := by
            have h2 := (setAll_ok items w2 st now K2 hK2 hca2).2.2.1
            rw [hwr] at h2
            exact h2
          have hget := SecureStorageService.get_enc wr k st now
            { ciphertext := aeadEncrypt K2 iv (encJson v), iv := iv, salt := none,
              algorithm := "AES-GCM-256" } now K2 hcellr hcar hkr
          rw [hget]
          dsimp only
          rw [aeadDecrypt_aeadEncrypt]

/-- A world holding one plain (unencrypted) entry in the always-enumerable
memory backend, ready for a rotation. -/
def wW9 : World :=
  { emptyWorld with
      encryptionKey := some keyC9
      initialized := true
      memoryStore := [(prefixedKey "t", .json (plainItemJson (.num 5) 0 none none))] }

theorem C9_witness :
    storageEnumerable wW9 StorageType.memoryT = true ∧
    (SecureStorageService.get
      (SecureStorageService.rotateKey wW9
        { keyMode := .session, password := none, key := none } StorageType.memoryT 0).1
      "t" { storage := StorageType.memoryT } 0).1 = some (.num 5) :=
  ⟨rfl, C9_rotation_roundtrip wW9 _
    { keyMode := .session, password := none, key := none } StorageType.memoryT 0
    "t" (.num 5) rfl rfl rfl⟩

theorem C10_witness :
    "_salt" ∈ SecureStorageService.keys
      (SecureStorageService.initializeStorage emptyWorld
        { keyMode := .password, password := some "p", key := none }).1
      { storage := StorageType.localT } :=
  (C10_salt_visibility emptyWorld "p" rfl rfl (by decide) rfl (by decide)).1

end Flyfront
